import Mathlib

/-!
# minit: the signal-driven supervisor loop

A shallow embedding of `src/minit.c`.

* The process-wide variables `shutdown_pid`, `reload_pid`, `terminate` and
  `reload` form the record `Globals`.
* A `const char *` is a `Ptr`: either the address of one of the string
  literals of the program image or the address of a command-line argument.
  Pointer comparison in C is equality of `Ptr`; the characters behind a
  pointer are read with `cstr`.
* Every call into the operating system is an `Event` supplied by the
  environment: the result of `fork` (and of `execlp` in the child), the signal
  whose handler ran during a `sigsuspend` (with the successive results of
  `waitpid` when that handler is `handle_child`), the result of `getpid` and
  the result of `wait`.
* `main` is the transition function `step` between the program points at
  which the process calls the operating system (`PC`); `run_events` runs a
  whole list of events. An event that the program cannot consume at its
  current program point yields `none`.

`setup_signals` blocks every signal and installs each handler with a full
`sa_mask`, so a handler runs only inside `sigsuspend` and exactly one handler
runs per `sigsuspend` call: this is the shape of `Event.deliver`.
-/

namespace Minit

/-! ## Constants, pointers and strings -/

def DEFAULT_STARTUP : String := "/etc/minit/startup"
def DEFAULT_SHUTDOWN : String := "/etc/minit/shutdown"
def DEFAULT_RELOAD : String := "/etc/minit/reload"

def ENOENT : Nat := 2
def ECHILD : Nat := 10

/-- A C string pointer: the address of the `k`-th string literal of the
program image, or the address of the `i`-th command-line argument. -/
inductive Ptr
  | rodata (k : Nat)
  | argv (i : Nat)
  deriving DecidableEq, Repr

def default_startup : Ptr := Ptr.rodata 0
def default_shutdown : Ptr := Ptr.rodata 1
def default_reload : Ptr := Ptr.rodata 2

/-- The characters stored behind a pointer, given the command line. -/
def cstr (argv : List String) : Ptr → String
  | Ptr.rodata 0 => DEFAULT_STARTUP
  | Ptr.rodata 1 => DEFAULT_SHUTDOWN
  | Ptr.rodata 2 => DEFAULT_RELOAD
  | Ptr.rodata _ => ""
  | Ptr.argv i => argv.getD i ""

inductive Signal
  | SIGCHLD
  | SIGTERM
  | SIGINT
  | SIGUSR1
  | SIGHUP
  deriving DecidableEq, Repr

/-! ## Global state and signal handlers -/

structure Globals where
  shutdown_pid : Int
  reload_pid : Int
  terminate : Int
  reload : Int
  deriving DecidableEq, Repr

/-- One result of `waitpid(-1, NULL, WNOHANG)`: the return value and the value
of `errno` after the call. -/
structure WaitRet where
  ret : Int
  errno : Nat
  deriving DecidableEq, Repr

/-- The body of the `for` loop of `handle_child` for one collected pid. -/
def collect (g : Globals) (pid : Int) : Globals :=
  let g1 := if pid = g.shutdown_pid then { g with shutdown_pid := 0 } else g
  if pid = g1.reload_pid then { g1 with reload_pid := 0 } else g1

/-- The `for` loop of `handle_child`: the successive results of `waitpid` are
consumed while they are positive; the result that ends the loop is returned
with the globals. `none`: the list holds no result that ends the loop. -/
def handle_child_loop (g : Globals) : List WaitRet → Option (Globals × WaitRet)
  | [] => none
  | w :: ws =>
    if w.ret > 0 then handle_child_loop (collect g w.ret) ws
    else some (g, w)

def handle_child (g : Globals) (waits : List WaitRet) : Option Globals :=
  match handle_child_loop g waits with
  | none => none
  | some (g1, w) => some (if w.ret = -1 then { g1 with terminate := 1 } else g1)

def handle_termination (g : Globals) : Globals :=
  { g with terminate := 1 }

def handle_reload (g : Globals) : Globals :=
  { g with reload := 1 }

/-- The handler table installed by `setup_signals`. -/
def handle (g : Globals) (sig : Signal) (waits : List WaitRet) : Option Globals :=
  match sig with
  | Signal.SIGCHLD => handle_child g waits
  | Signal.SIGTERM => some (handle_termination g)
  | Signal.SIGINT => some (handle_termination g)
  | Signal.SIGUSR1 => some (handle_reload g)
  | Signal.SIGHUP => some (handle_reload g)

/-- The pids collected by one invocation of `handle_child`: the positive
results that precede the first non-positive one. -/
def collected (waits : List WaitRet) : List Int :=
  (waits.takeWhile (fun w => decide (w.ret > 0))).map WaitRet.ret

/-- The result that ends the loop of `handle_child`, if the list holds one. -/
def last_wait (waits : List WaitRet) : Option WaitRet :=
  (waits.dropWhile (fun w => decide (w.ret > 0))).head?

/-! ## The child launcher -/

inductive RunResult
  | returned (pid : Int) (err : List String)
  | execed
  | exited (status : Int) (err : List String)
  deriving DecidableEq, Repr

/-- The function `run`. `fork_ret` is the result of `fork`; `exec_errno` is
`none` when `execlp` replaces the process image and `some e` when it fails
with `errno = e`. The lists hold the arguments of the calls to `perror`, in
order. The signal mask that the child restores is not modelled. -/
def run (argv : List String) (filename : Ptr) (fork_ret : Int)
    (exec_errno : Option Nat) : RunResult :=
  let err := if fork_ret = -1 then ["minit: fork"] else []
  if fork_ret = 0 then
    match exec_errno with
    | none => RunResult.execed
    | some e =>
      if (filename = default_startup ∨ filename = default_shutdown
            ∨ filename = default_reload) ∧ e = ENOENT then
        RunResult.exited 0 []
      else
        RunResult.exited 1 [cstr argv filename]
  else
    RunResult.returned fork_ret err

/-! ## The supervisor loop -/

/-- The choice `argc > i && *argv[i] ? argv[i] : dflt` of `main`. -/
def script (argv : List String) (i : Nat) (dflt : Ptr) : Ptr :=
  if argv.length > i ∧ argv.getD i "" ≠ "" then Ptr.argv i else dflt

def startup_script (argv : List String) : Ptr := script argv 1 default_startup
def shutdown_script (argv : List String) : Ptr := script argv 2 default_shutdown
def reload_script (argv : List String) : Ptr := script argv 3 default_reload

/-- What the process has done so far, in order. -/
inductive Action
  | perror (msg : String)
  | run (filename : Ptr) (pid : Int)
  | sigsuspend (sig : Signal)
  | kill (pid : Int) (sig : Signal)
  | wait (ret : Int)
  deriving DecidableEq, Repr

/-- The program points of `main` at which the process calls the operating
system, and the two ways the process ends. -/
inductive PC
  | run_startup
  | suspend_idle
  | run_reload
  | suspend_reload
  | run_shutdown
  | suspend_shutdown
  | getpid
  | wait
  | exited (status : Int)
  | execed
  deriving DecidableEq, Repr

inductive Event
  | fork (ret : Int) (exec_errno : Option Nat)
  | deliver (sig : Signal) (waits : List WaitRet)
  | getpid (pid : Int)
  | wait (ret : Int)
  deriving DecidableEq, Repr

structure Config where
  g : Globals
  pc : PC
  trace : List Action
  deriving DecidableEq, Repr

/-- The label `run_forever`: the test of the idle loop, then the branch on
`reload`. -/
def run_forever (g : Globals) : PC :=
  if ¬ (g.terminate ≠ 0 ∨ g.reload ≠ 0) then PC.suspend_idle
  else if g.reload ≠ 0 then PC.run_reload
  else PC.run_shutdown

/-- The test of `while(reload_pid > 0)`; when it fails `reload = 0` and
`goto run_forever`. -/
def reload_wait (g : Globals) : Globals × PC :=
  if g.reload_pid > 0 then (g, PC.suspend_reload)
  else ({ g with reload := 0 }, run_forever { g with reload := 0 })

/-- The test of `while(shutdown_pid > 0)`. -/
def shutdown_wait (g : Globals) : PC :=
  if g.shutdown_pid > 0 then PC.suspend_shutdown else PC.getpid

/-- A call `run(filename, default_mask)` made by `main`; `k` is what `main`
does with the returned pid. -/
def call_run (argv : List String) (c : Config) (filename : Ptr) (ret : Int)
    (ex : Option Nat) (k : Int → Globals × PC) : Config :=
  match run argv filename ret ex with
  | RunResult.returned pid err =>
    { g := (k pid).1, pc := (k pid).2,
      trace := c.trace ++ err.map Action.perror ++ [Action.run filename pid] }
  | RunResult.execed => { c with pc := PC.execed }
  | RunResult.exited status err =>
    { c with pc := PC.exited status, trace := c.trace ++ err.map Action.perror }

/-- A call `sigsuspend(&suspend_mask)` made by `main`; `k` is the loop test
that follows it. -/
def call_sigsuspend (c : Config) (sig : Signal) (waits : List WaitRet)
    (k : Globals → Globals × PC) : Option Config :=
  match handle c.g sig waits with
  | none => none
  | some g1 =>
    some { g := (k g1).1, pc := (k g1).2, trace := c.trace ++ [Action.sigsuspend sig] }

/-- One step of `main`, from one call into the operating system to the next. -/
def step (argv : List String) (c : Config) (e : Event) : Option Config :=
  match c.pc, e with
  | PC.run_startup, Event.fork ret ex =>
    some (call_run argv c (startup_script argv) ret ex
      (fun _ => (c.g, run_forever c.g)))
  | PC.suspend_idle, Event.deliver sig waits =>
    call_sigsuspend c sig waits (fun g1 => (g1, run_forever g1))
  | PC.run_reload, Event.fork ret ex =>
    some (call_run argv c (reload_script argv) ret ex
      (fun pid => reload_wait { c.g with reload_pid := pid }))
  | PC.suspend_reload, Event.deliver sig waits =>
    call_sigsuspend c sig waits reload_wait
  | PC.run_shutdown, Event.fork ret ex =>
    some (call_run argv c (shutdown_script argv) ret ex
      (fun pid => ({ c.g with shutdown_pid := pid },
                   shutdown_wait { c.g with shutdown_pid := pid })))
  | PC.suspend_shutdown, Event.deliver sig waits =>
    call_sigsuspend c sig waits (fun g1 => (g1, shutdown_wait g1))
  | PC.getpid, Event.getpid pid =>
    if pid = 1 then
      some { c with pc := PC.wait,
                    trace := c.trace ++ [Action.kill (-1) Signal.SIGTERM] }
    else some { c with pc := PC.exited 0 }
  | PC.wait, Event.wait ret =>
    if ret > 0 then some { c with trace := c.trace ++ [Action.wait ret] }
    else some { c with pc := PC.exited 0, trace := c.trace ++ [Action.wait ret] }
  | _, _ => none

def run_events (argv : List String) (c : Config) : List Event → Option Config
  | [] => some c
  | e :: es =>
    match step argv c e with
    | none => none
    | some c1 => run_events argv c1 es

/-- The state of the process on entry to `main`, after `setup_signals`. -/
def init : Config :=
  { g := { shutdown_pid := 0, reload_pid := 0, terminate := 0, reload := 0 },
    pc := PC.run_startup, trace := [] }

/-! ## Vocabulary for executions -/

/-- The event is a signal delivery whose handler returns: for `SIGCHLD`, some
result of `waitpid` in the list is non-positive and ends the loop. -/
def delivered : Event → Bool
  | Event.deliver Signal.SIGCHLD waits => waits.any (fun w => decide (w.ret ≤ 0))
  | Event.deliver _ _ => true
  | _ => false

/-- The event is a delivery of `SIGCHLD` during which `handle_child` collects
the pid `p`. -/
def collects (e : Event) (p : Int) : Bool :=
  match e with
  | Event.deliver Signal.SIGCHLD waits => decide (p ∈ collected waits)
  | _ => false

/-- The event is a delivery of a reload-class signal (`SIGUSR1` or `SIGHUP`). -/
def reload_signal : Event → Bool
  | Event.deliver Signal.SIGUSR1 _ => true
  | Event.deliver Signal.SIGHUP _ => true
  | _ => false

/-- The `sigsuspend` calls that a list of deliveries completes. -/
def suspensions : List Event → List Action
  | [] => []
  | Event.deliver sig _ :: es => Action.sigsuspend sig :: suspensions es
  | _ :: es => suspensions es

/-- The number of calls `run(filename, ...)` of the supervisor in a trace. -/
def launches (filename : Ptr) : List Action → Nat
  | [] => 0
  | Action.run f _ :: t => (if f = filename then 1 else 0) + launches filename t
  | _ :: t => launches filename t

/-- The process followed is the supervisor: no `fork` returns 0. -/
def supervisor_side : List Event → Bool
  | [] => true
  | Event.fork ret _ :: es => decide (ret ≠ 0) && supervisor_side es
  | _ :: es => supervisor_side es

/-- The number of children that the supervisor's calls `run(filename, ...)`
started: the calls in the trace whose `fork` returned a pid. -/
def children (filename : Ptr) : List Action → Nat
  | [] => 0
  | Action.run f pid :: t =>
    (if f = filename ∧ pid > 0 then 1 else 0) + children filename t
  | _ :: t => children filename t

/-- No `fork` fails and the process followed is the supervisor: every `fork`
returns a pid. -/
def forks_succeed : List Event → Bool
  | [] => true
  | Event.fork ret _ :: es => decide (ret > 0) && forks_succeed es
  | _ :: es => forks_succeed es

/-- The number of deliveries of reload-class signals in a list of events. -/
def reload_signals (es : List Event) : Nat := es.countP reload_signal

/-- What holds of the supervisor at each program point after an execution
from `init` in which `R` reload-class signals were delivered. -/
def reachable_inv (argv : List String) (c : Config) (R : Nat) : Prop :=
  launches (reload_script argv) c.trace ≤ R ∧
  match c.pc with
  | PC.run_startup => c.g.terminate = 0 ∧ c.g.reload = 0 ∧ R = 0
  | PC.suspend_idle =>
    c.g.terminate = 0 ∧ c.g.reload = 0
      ∧ (1 ≤ R → 1 ≤ launches (reload_script argv) c.trace)
  | PC.run_reload =>
    c.g.terminate = 0 ∧ c.g.reload ≠ 0
      ∧ launches (reload_script argv) c.trace + 1 ≤ R
  | PC.suspend_reload =>
    c.g.reload ≠ 0 ∧ 0 < c.g.reload_pid
      ∧ 1 ≤ launches (reload_script argv) c.trace
  | PC.run_shutdown => c.g.terminate ≠ 0 ∧ c.g.reload = 0
  | PC.execed => False
  | _ => c.g.terminate ≠ 0

/-! ## Lemmas on the child-exit handler -/

theorem collect_shutdown_pid (g : Globals) (pid : Int) :
    (collect g pid).shutdown_pid = if pid = g.shutdown_pid then 0 else g.shutdown_pid := by
  simp only [collect]
  split_ifs <;> simp_all

theorem collect_reload_pid (g : Globals) (pid : Int) :
    (collect g pid).reload_pid = if pid = g.reload_pid then 0 else g.reload_pid := by
  simp only [collect]
  split_ifs <;> simp_all

theorem collect_terminate (g : Globals) (pid : Int) :
    (collect g pid).terminate = g.terminate := by
  simp only [collect]
  split_ifs <;> simp_all

theorem collect_reload (g : Globals) (pid : Int) :
    (collect g pid).reload = g.reload := by
  simp only [collect]
  split_ifs <;> simp_all

theorem foldl_collect_shutdown_pid (pids : List Int) (g : Globals) :
    (pids.foldl collect g).shutdown_pid
      = if g.shutdown_pid ∈ pids then 0 else g.shutdown_pid := by
  induction pids generalizing g with
  | nil => simp
  | cons p ps ih =>
    rw [List.foldl_cons, ih, collect_shutdown_pid]
    by_cases h : p = g.shutdown_pid
    · simp [h]
    · have h2 : ¬ g.shutdown_pid = p := fun e => h e.symm
      simp [h, h2]

theorem foldl_collect_reload_pid (pids : List Int) (g : Globals) :
    (pids.foldl collect g).reload_pid
      = if g.reload_pid ∈ pids then 0 else g.reload_pid := by
  induction pids generalizing g with
  | nil => simp
  | cons p ps ih =>
    rw [List.foldl_cons, ih, collect_reload_pid]
    by_cases h : p = g.reload_pid
    · simp [h]
    · have h2 : ¬ g.reload_pid = p := fun e => h e.symm
      simp [h, h2]

theorem foldl_collect_terminate (pids : List Int) (g : Globals) :
    (pids.foldl collect g).terminate = g.terminate := by
  induction pids generalizing g with
  | nil => simp
  | cons p ps ih => rw [List.foldl_cons, ih, collect_terminate]

theorem foldl_collect_reload (pids : List Int) (g : Globals) :
    (pids.foldl collect g).reload = g.reload := by
  induction pids generalizing g with
  | nil => simp
  | cons p ps ih => rw [List.foldl_cons, ih, collect_reload]

/-- The loop of `handle_child` on a run of positive results followed by a
non-positive one: every positive result is collected, and the loop ends on
the non-positive one. -/
theorem handle_child_loop_append (ws : List WaitRet) (last : WaitRet)
    (rest : List WaitRet) (g : Globals)
    (hpos : ∀ w ∈ ws, 0 < w.ret) (hlast : last.ret ≤ 0) :
    handle_child_loop g (ws ++ last :: rest)
      = some ((ws.map WaitRet.ret).foldl collect g, last) := by
  induction ws generalizing g with
  | nil =>
    have h : ¬ last.ret > 0 := by omega
    simp [handle_child_loop, h]
  | cons w ws ih =>
    have hw : w.ret > 0 := hpos w (List.mem_cons_self _ _)
    have hrest : ∀ v ∈ ws, 0 < v.ret := fun v hv => hpos v (List.mem_cons_of_mem _ hv)
    simp [handle_child_loop, hw, ih _ hrest]

theorem handle_child_append (ws : List WaitRet) (last : WaitRet)
    (rest : List WaitRet) (g : Globals)
    (hpos : ∀ w ∈ ws, 0 < w.ret) (hlast : last.ret ≤ 0) :
    handle_child g (ws ++ last :: rest)
      = some (if last.ret = -1
          then { (ws.map WaitRet.ret).foldl collect g with terminate := 1 }
          else (ws.map WaitRet.ret).foldl collect g) := by
  simp [handle_child, handle_child_loop_append ws last rest g hpos hlast]

theorem collected_append (ws : List WaitRet) (last : WaitRet)
    (rest : List WaitRet) (hpos : ∀ w ∈ ws, 0 < w.ret) (hlast : last.ret ≤ 0) :
    collected (ws ++ last :: rest) = ws.map WaitRet.ret := by
  induction ws with
  | nil =>
    have h : ¬ last.ret > 0 := by omega
    simp [collected, List.takeWhile, h]
  | cons w ws ih =>
    have hw : w.ret > 0 := hpos w (List.mem_cons_self _ _)
    have hrest : ∀ v ∈ ws, 0 < v.ret := fun v hv => hpos v (List.mem_cons_of_mem _ hv)
    have := ih hrest
    simp [collected, List.takeWhile, hw] at this ⊢
    exact this

/-! ## The child-exit handler: tracked handles and forced termination -/

/-- C3: for every initial pair of handles and every run of positive pids
collected by one invocation of `handle_child` (ended by a non-positive result
of `waitpid`), the handler returns; `shutdown_pid` is then 0 if its initial
value is among the collected pids and is its initial value otherwise, and the
same holds, independently, for `reload_pid`. In particular, when neither
initial value is collected, both handles are unchanged. -/
theorem handle_child_clears_matching_handles (g : Globals) (ws : List WaitRet)
    (last : WaitRet) (rest : List WaitRet)
    (hpos : ∀ w ∈ ws, 0 < w.ret) (hlast : last.ret ≤ 0) :
    ∃ g1, handle_child g (ws ++ last :: rest) = some g1
      ∧ collected (ws ++ last :: rest) = ws.map WaitRet.ret
      ∧ g1.shutdown_pid
          = (if g.shutdown_pid ∈ ws.map WaitRet.ret then 0 else g.shutdown_pid)
      ∧ g1.reload_pid
          = (if g.reload_pid ∈ ws.map WaitRet.ret then 0 else g.reload_pid)
      ∧ (g.shutdown_pid ∉ ws.map WaitRet.ret → g.reload_pid ∉ ws.map WaitRet.ret →
          g1.shutdown_pid = g.shutdown_pid ∧ g1.reload_pid = g.reload_pid) := by
  refine ⟨_, handle_child_append ws last rest g hpos hlast,
    collected_append ws last rest hpos hlast, ?_, ?_, ?_⟩
  · by_cases h : last.ret = -1 <;> simp [h, foldl_collect_shutdown_pid]
  · by_cases h : last.ret = -1 <;> simp [h, foldl_collect_reload_pid]
  · intro h1 h2
    by_cases h : last.ret = -1 <;>
      simp [h, foldl_collect_shutdown_pid, foldl_collect_reload_pid, h1, h2]

theorem handle_child_clears_matching_handles_witness :
    (∀ w ∈ [WaitRet.mk 3 0, WaitRet.mk 7 0], 0 < w.ret) ∧ (WaitRet.mk 0 0).ret ≤ 0
    ∧ ∃ g1, handle_child (Globals.mk 7 9 0 0)
          ([WaitRet.mk 3 0, WaitRet.mk 7 0] ++ WaitRet.mk 0 0 :: []) = some g1
      ∧ collected ([WaitRet.mk 3 0, WaitRet.mk 7 0] ++ WaitRet.mk 0 0 :: [])
          = [WaitRet.mk 3 0, WaitRet.mk 7 0].map WaitRet.ret
      ∧ g1.shutdown_pid
          = (if (Globals.mk 7 9 0 0).shutdown_pid
                ∈ [WaitRet.mk 3 0, WaitRet.mk 7 0].map WaitRet.ret
             then 0 else (Globals.mk 7 9 0 0).shutdown_pid)
      ∧ g1.reload_pid
          = (if (Globals.mk 7 9 0 0).reload_pid
                ∈ [WaitRet.mk 3 0, WaitRet.mk 7 0].map WaitRet.ret
             then 0 else (Globals.mk 7 9 0 0).reload_pid)
      ∧ ((Globals.mk 7 9 0 0).shutdown_pid
            ∉ [WaitRet.mk 3 0, WaitRet.mk 7 0].map WaitRet.ret →
          (Globals.mk 7 9 0 0).reload_pid
            ∉ [WaitRet.mk 3 0, WaitRet.mk 7 0].map WaitRet.ret →
          g1.shutdown_pid = (Globals.mk 7 9 0 0).shutdown_pid
            ∧ g1.reload_pid = (Globals.mk 7 9 0 0).reload_pid) :=
  ⟨by decide, by decide,
    handle_child_clears_matching_handles (Globals.mk 7 9 0 0)
      [WaitRet.mk 3 0, WaitRet.mk 7 0] (WaitRet.mk 0 0) [] (by decide) (by decide)⟩

/-- What `handle_child` does to `terminate`: after a run of positive pids ended
by a non-positive result of `waitpid`, `terminate` is 1 when that last result
is -1 and is unchanged otherwise. -/
theorem handle_child_terminate (g : Globals) (ws : List WaitRet)
    (last : WaitRet) (rest : List WaitRet)
    (hpos : ∀ w ∈ ws, 0 < w.ret) (hlast : last.ret ≤ 0) :
    ∃ g1, handle_child g (ws ++ last :: rest) = some g1
      ∧ g1.terminate = (if last.ret = -1 then 1 else g.terminate) := by
  refine ⟨_, handle_child_append ws last rest g hpos hlast, ?_⟩
  by_cases h : last.ret = -1 <;> simp [h, foldl_collect_terminate]

theorem last_wait_append (ws : List WaitRet) (last : WaitRet)
    (rest : List WaitRet) (hpos : ∀ w ∈ ws, 0 < w.ret) (hlast : last.ret ≤ 0) :
    last_wait (ws ++ last :: rest) = some last := by
  induction ws with
  | nil =>
    have h : ¬ last.ret > 0 := by omega
    simp [last_wait, List.dropWhile, h]
  | cons w ws ih =>
    have hw : w.ret > 0 := hpos w (List.mem_cons_self _ _)
    have hrest : ∀ v ∈ ws, 0 < v.ret := fun v hv => hpos v (List.mem_cons_of_mem _ hv)
    have := ih hrest
    simp [last_wait, List.dropWhile, hw] at this ⊢
    exact this

/-- C10: the child-exit handler requests termination exactly when its
collection call fails with "no children". `waitpid(-1, NULL, WNOHANG)` fails
only with `ECHILD` (hypothesis `hfail`: a result of -1 comes with
`errno = ECHILD`). For every invocation whose loop collects the positive pids
`ws` and ends on the result `last`: the handler returns; `terminate` is 1 if
`last` is a failed collection reporting no children; `terminate` is unchanged
if `last` is any other outcome, in particular 0 (children remain but none has
exited). -/
theorem handle_child_terminates_on_no_children (g : Globals) (ws : List WaitRet)
    (last : WaitRet) (rest : List WaitRet)
    (hpos : ∀ w ∈ ws, 0 < w.ret) (hlast : last.ret ≤ 0)
    (hfail : last.ret = -1 → last.errno = ECHILD) :
    ∃ g1, handle_child g (ws ++ last :: rest) = some g1
      ∧ last_wait (ws ++ last :: rest) = some last
      ∧ (last.ret = -1 ∧ last.errno = ECHILD → g1.terminate = 1)
      ∧ (¬ (last.ret = -1 ∧ last.errno = ECHILD) → g1.terminate = g.terminate)
      ∧ (last.ret = 0 → g1.terminate = g.terminate) := by
  obtain ⟨g1, h1, h2⟩ := handle_child_terminate g ws last rest hpos hlast
  refine ⟨g1, h1, last_wait_append ws last rest hpos hlast, ?_, ?_, ?_⟩
  · intro h
    rw [h2, if_pos h.1]
  · intro h
    have hne : ¬ last.ret = -1 := fun e => h ⟨e, hfail e⟩
    rw [h2, if_neg hne]
  · intro h
    have hne : ¬ last.ret = -1 := by omega
    rw [h2, if_neg hne]

theorem handle_child_terminates_on_no_children_witness :
    ((∀ w ∈ [WaitRet.mk 3 0], 0 < w.ret) ∧ (WaitRet.mk (-1) ECHILD).ret ≤ 0
      ∧ ((WaitRet.mk (-1) ECHILD).ret = -1 → (WaitRet.mk (-1) ECHILD).errno = ECHILD)
      ∧ handle_child (Globals.mk 0 3 0 1)
            ([WaitRet.mk 3 0] ++ WaitRet.mk (-1) ECHILD :: [])
          = some (Globals.mk 0 0 1 1))
    ∧ ((∀ w ∈ [WaitRet.mk 3 0], 0 < w.ret) ∧ (WaitRet.mk 0 0).ret ≤ 0
      ∧ ((WaitRet.mk 0 0).ret = -1 → (WaitRet.mk 0 0).errno = ECHILD)
      ∧ handle_child (Globals.mk 0 3 0 1) ([WaitRet.mk 3 0] ++ WaitRet.mk 0 0 :: [])
          = some (Globals.mk 0 0 0 1))
    ∧ (∃ g1, handle_child (Globals.mk 0 3 0 1)
            ([WaitRet.mk 3 0] ++ WaitRet.mk (-1) ECHILD :: []) = some g1
        ∧ last_wait ([WaitRet.mk 3 0] ++ WaitRet.mk (-1) ECHILD :: [])
            = some (WaitRet.mk (-1) ECHILD)
        ∧ ((WaitRet.mk (-1) ECHILD).ret = -1
            ∧ (WaitRet.mk (-1) ECHILD).errno = ECHILD → g1.terminate = 1)
        ∧ (¬ ((WaitRet.mk (-1) ECHILD).ret = -1
            ∧ (WaitRet.mk (-1) ECHILD).errno = ECHILD) →
            g1.terminate = (Globals.mk 0 3 0 1).terminate)
        ∧ ((WaitRet.mk (-1) ECHILD).ret = 0 →
            g1.terminate = (Globals.mk 0 3 0 1).terminate))
    ∧ (∃ g1, handle_child (Globals.mk 0 3 0 1)
            ([WaitRet.mk 3 0] ++ WaitRet.mk 0 0 :: []) = some g1
        ∧ last_wait ([WaitRet.mk 3 0] ++ WaitRet.mk 0 0 :: []) = some (WaitRet.mk 0 0)
        ∧ ((WaitRet.mk 0 0).ret = -1 ∧ (WaitRet.mk 0 0).errno = ECHILD →
            g1.terminate = 1)
        ∧ (¬ ((WaitRet.mk 0 0).ret = -1 ∧ (WaitRet.mk 0 0).errno = ECHILD) →
            g1.terminate = (Globals.mk 0 3 0 1).terminate)
        ∧ ((WaitRet.mk 0 0).ret = 0 →
            g1.terminate = (Globals.mk 0 3 0 1).terminate)) :=
  ⟨by decide, by decide,
    handle_child_terminates_on_no_children (Globals.mk 0 3 0 1) [WaitRet.mk 3 0]
      (WaitRet.mk (-1) ECHILD) [] (by decide) (by decide) (by decide),
    handle_child_terminates_on_no_children (Globals.mk 0 3 0 1) [WaitRet.mk 3 0]
      (WaitRet.mk 0 0) [] (by decide) (by decide) (by decide)⟩

/-! ## The child launcher: tolerated exec failures -/

/-- C4: in the child branch of `run` (`fork` returned 0), when `execlp` fails
with `errno = e` the child exits with status 0 and prints nothing if and only
if the pointer `filename` is one of the three built-in default pointers and
`e` is `ENOENT`; in every other case it prints one diagnostic, which names the
path, and exits with status 1. -/
theorem run_child_exec_failure (argv : List String) (filename : Ptr) (e : Nat) :
    (run argv filename 0 (some e) = RunResult.exited 0 []
      ↔ (filename = default_startup ∨ filename = default_shutdown
            ∨ filename = default_reload) ∧ e = ENOENT)
    ∧ (¬ ((filename = default_startup ∨ filename = default_shutdown
            ∨ filename = default_reload) ∧ e = ENOENT) →
        run argv filename 0 (some e) = RunResult.exited 1 [cstr argv filename]) := by
  by_cases h : (filename = default_startup ∨ filename = default_shutdown
            ∨ filename = default_reload) ∧ e = ENOENT
  · simp [run, h]
  · simp only [run, h]
    simp

theorem run_child_exec_failure_witness :
    ¬ ((Ptr.argv 1 = default_startup ∨ Ptr.argv 1 = default_shutdown
          ∨ Ptr.argv 1 = default_reload) ∧ ENOENT = ENOENT)
    ∧ run ["minit", "/opt/start"] (Ptr.argv 1) 0 (some ENOENT)
        = RunResult.exited 1 [cstr ["minit", "/opt/start"] (Ptr.argv 1)] :=
  ⟨by decide,
    (run_child_exec_failure ["minit", "/opt/start"] (Ptr.argv 1) ENOENT).2 (by decide)⟩

/-- C5 fails as stated: with the command line `minit /etc/minit/startup` the
startup script that `main` resolves has the same characters as the built-in
default, yet when `execlp` fails with `ENOENT` in the child that `main` forks
for it, the child prints a diagnostic and exits with status 1, where the
built-in default exits silently with status 0. -/
theorem explicit_default_string_not_tolerated :
    cstr ["minit", "/etc/minit/startup"] (startup_script ["minit", "/etc/minit/startup"])
      = cstr ["minit", "/etc/minit/startup"] default_startup
    ∧ run ["minit", "/etc/minit/startup"] (startup_script ["minit", "/etc/minit/startup"])
        0 (some ENOENT) = RunResult.exited 1 ["/etc/minit/startup"]
    ∧ step ["minit", "/etc/minit/startup"] init (Event.fork 0 (some ENOENT))
        = some { g := init.g, pc := PC.exited 1,
                 trace := [Action.perror "/etc/minit/startup"] }
    ∧ run ["minit", "/etc/minit/startup"] default_startup 0 (some ENOENT)
        = RunResult.exited 0 [] := by
  decide

/-- C5, as the code has it: a script path supplied on the command line (a
non-empty argument) is never treated as a default, whatever its characters:
when `execlp` fails in the child, for any reason, the child prints a diagnostic
naming the path and exits with status 1. Only an argument that is absent or
empty resolves to the built-in default pointer, for which `ENOENT` is
tolerated (silent exit with status 0). -/
theorem explicit_path_never_tolerated (argv : List String) (i : Nat) (dflt : Ptr)
    (e : Nat) :
    (i < argv.length ∧ argv.getD i "" ≠ "" →
      script argv i dflt = Ptr.argv i
      ∧ run argv (script argv i dflt) 0 (some e)
          = RunResult.exited 1 [argv.getD i ""])
    ∧ (¬ (i < argv.length ∧ argv.getD i "" ≠ "") →
        (dflt = default_startup ∨ dflt = default_shutdown ∨ dflt = default_reload) →
        script argv i dflt = dflt
        ∧ run argv (script argv i dflt) 0 (some ENOENT) = RunResult.exited 0 []) := by
  constructor
  · intro h
    have hs : script argv i dflt = Ptr.argv i := by
      unfold script
      rw [if_pos h]
    refine ⟨hs, ?_⟩
    rw [hs]
    simp [run, default_startup, default_shutdown, default_reload, cstr]
  · intro h hd
    have hs : script argv i dflt = dflt := by
      unfold script
      rw [if_neg h]
    refine ⟨hs, ?_⟩
    rw [hs]
    simp [run, hd]

theorem explicit_path_never_tolerated_witness :
    ((1 < ["minit", "/etc/minit/startup"].length
        ∧ ["minit", "/etc/minit/startup"].getD 1 "" ≠ "")
      ∧ script ["minit", "/etc/minit/startup"] 1 default_startup = Ptr.argv 1
      ∧ run ["minit", "/etc/minit/startup"]
            (script ["minit", "/etc/minit/startup"] 1 default_startup) 0 (some ENOENT)
          = RunResult.exited 1 [["minit", "/etc/minit/startup"].getD 1 ""])
    ∧ (¬ (1 < ["minit"].length ∧ ["minit"].getD 1 "" ≠ "")
      ∧ script ["minit"] 1 default_startup = default_startup
      ∧ run ["minit"] (script ["minit"] 1 default_startup) 0 (some ENOENT)
          = RunResult.exited 0 []) :=
  ⟨⟨by decide,
    (explicit_path_never_tolerated ["minit", "/etc/minit/startup"] 1 default_startup
      ENOENT).1 (by decide)⟩,
   ⟨by decide,
    (explicit_path_never_tolerated ["minit"] 1 default_startup ENOENT).2
      (by decide) (Or.inl rfl)⟩⟩

/-! ## Lemmas on handlers and on single steps -/

theorem handle_child_loop_eq (waits : List WaitRet) (g : Globals) :
    handle_child_loop g waits
      = (last_wait waits).map (fun w => ((collected waits).foldl collect g, w)) := by
  induction waits generalizing g with
  | nil => simp [handle_child_loop, last_wait]
  | cons w ws ih =>
    by_cases h : w.ret > 0
    · have := ih (collect g w.ret)
      simp [handle_child_loop, last_wait, collected, List.takeWhile, List.dropWhile, h] at this ⊢
      exact this
    · simp [handle_child_loop, last_wait, collected, List.takeWhile, List.dropWhile, h]

theorem last_wait_isSome (waits : List WaitRet) :
    (last_wait waits).isSome = waits.any (fun w => decide (w.ret ≤ 0)) := by
  induction waits with
  | nil => simp [last_wait]
  | cons w ws ih =>
    by_cases h : w.ret > 0
    · have h2 : ¬ w.ret ≤ 0 := by omega
      simp [last_wait, List.dropWhile, h, h2] at ih ⊢
      exact ih
    · have h2 : w.ret ≤ 0 := by omega
      simp [last_wait, List.dropWhile, h, h2]

theorem handle_child_some (g : Globals) (waits : List WaitRet)
    (h : waits.any (fun w => decide (w.ret ≤ 0)) = true) :
    ∃ g1, handle_child g waits = some g1 := by
  rw [← last_wait_isSome] at h
  obtain ⟨w, hw⟩ := Option.isSome_iff_exists.mp h
  simp [handle_child, handle_child_loop_eq, hw]

theorem handle_some (g : Globals) (sig : Signal) (waits : List WaitRet)
    (h : delivered (Event.deliver sig waits) = true) :
    ∃ g1, handle g sig waits = some g1 := by
  cases sig
  · exact handle_child_some g waits h
  all_goals exact ⟨_, rfl⟩

/-- What one handler invocation does to the four globals. -/
theorem handle_spec (g g1 : Globals) (sig : Signal) (waits : List WaitRet)
    (h : handle g sig waits = some g1) :
    g1.shutdown_pid
        = (if collects (Event.deliver sig waits) g.shutdown_pid then 0 else g.shutdown_pid)
    ∧ g1.reload_pid
        = (if collects (Event.deliver sig waits) g.reload_pid then 0 else g.reload_pid)
    ∧ (g1.terminate = g.terminate ∨ g1.terminate = 1)
    ∧ (g1.reload = g.reload ∨ g1.reload = 1)
    ∧ (reload_signal (Event.deliver sig waits) = false → g1.reload = g.reload)
    ∧ (reload_signal (Event.deliver sig waits) = true → g1.terminate = g.terminate) := by
  cases sig
  · simp only [handle, handle_child, handle_child_loop_eq] at h
    cases hl : last_wait waits with
    | none => simp [hl] at h
    | some w =>
      simp only [hl, Option.map_some'] at h
      have h := (Option.some.inj h).symm
      by_cases hw : w.ret = -1
      · simp only [hw, if_true] at h
        subst h
        simp [collects, reload_signal, foldl_collect_shutdown_pid,
          foldl_collect_reload_pid, foldl_collect_reload]
      · simp only [hw, if_false] at h
        subst h
        simp [collects, reload_signal, foldl_collect_shutdown_pid,
          foldl_collect_reload_pid, foldl_collect_reload, foldl_collect_terminate]
  all_goals
    simp only [handle, handle_termination, handle_reload] at h
    have h := (Option.some.inj h).symm
    subst h
    simp [collects, reload_signal]

theorem run_events_append (argv : List String) (es1 es2 : List Event) (c : Config) :
    run_events argv c (es1 ++ es2)
      = (run_events argv c es1).bind (fun c1 => run_events argv c1 es2) := by
  induction es1 generalizing c with
  | nil => simp [run_events]
  | cons e es ih =>
    simp only [List.cons_append, run_events]
    cases step argv c e with
    | none => simp
    | some c1 => simp [ih]

theorem suspensions_append (es1 es2 : List Event) :
    suspensions (es1 ++ es2) = suspensions es1 ++ suspensions es2 := by
  induction es1 with
  | nil => simp [suspensions]
  | cons e es ih => cases e <;> simp [suspensions, ih]

theorem launches_append (f : Ptr) (t1 t2 : List Action) :
    launches f (t1 ++ t2) = launches f t1 + launches f t2 := by
  induction t1 with
  | nil => simp [launches]
  | cons a t ih => cases a <;> simp [launches, ih, Nat.add_assoc]

theorem launches_perror (f : Ptr) (err : List String) :
    launches f (err.map Action.perror) = 0 := by
  induction err with
  | nil => simp [launches]
  | cons a t ih => simp [launches, ih]

theorem launches_suspensions (f : Ptr) (es : List Event) :
    launches f (suspensions es) = 0 := by
  induction es with
  | nil => simp [launches, suspensions]
  | cons e es ih => cases e <;> simp [launches, suspensions, ih]

/-- The supervisor's side of `run`: when `fork` does not return 0, `run`
returns what `fork` returned, after reporting a failed `fork`. -/
theorem run_parent (argv : List String) (filename : Ptr) (ret : Int)
    (ex : Option Nat) (h : ret ≠ 0) :
    run argv filename ret ex
      = RunResult.returned ret (if ret = -1 then ["minit: fork"] else []) := by
  simp [run, h]

/-- A delivery at a `sigsuspend` of `main`. -/
theorem call_sigsuspend_some (c : Config) (sig : Signal) (waits : List WaitRet)
    (k : Globals → Globals × PC) (h : delivered (Event.deliver sig waits) = true) :
    ∃ g1, handle c.g sig waits = some g1
      ∧ call_sigsuspend c sig waits k
          = some { g := (k g1).1, pc := (k g1).2,
                   trace := c.trace ++ [Action.sigsuspend sig] } := by
  obtain ⟨g1, hg⟩ := handle_some c.g sig waits h
  exact ⟨g1, hg, by simp [call_sigsuspend, hg]⟩

/-! ## The two waits on a tracked child -/

theorem step_suspend_reload (argv : List String) (c : Config) (e : Event)
    (hpc : c.pc = PC.suspend_reload) :
    step argv c e
      = match e with
        | Event.deliver sig waits => call_sigsuspend c sig waits reload_wait
        | _ => none := by
  cases e <;> simp [step, hpc]

theorem step_suspend_shutdown (argv : List String) (c : Config) (e : Event)
    (hpc : c.pc = PC.suspend_shutdown) :
    step argv c e
      = match e with
        | Event.deliver sig waits =>
          call_sigsuspend c sig waits (fun g1 => (g1, shutdown_wait g1))
        | _ => none := by
  cases e <;> simp [step, hpc]

theorem step_suspend_idle (argv : List String) (c : Config) (e : Event)
    (hpc : c.pc = PC.suspend_idle) :
    step argv c e
      = match e with
        | Event.deliver sig waits =>
          call_sigsuspend c sig waits (fun g1 => (g1, run_forever g1))
        | _ => none := by
  cases e <;> simp [step, hpc]

/-- One step of the reload wait: a step taken while the reload child is
tracked is a completed `sigsuspend`; unless its handler collected the tracked
pid, the supervisor is still in the reload wait, tracking the same pid. -/
theorem reload_wait_step (argv : List String) (c c1 : Config) (e : Event)
    (hpc : c.pc = PC.suspend_reload) (hp : 0 < c.g.reload_pid)
    (hs : step argv c e = some c1) (hc : collects e c.g.reload_pid = false) :
    c1.pc = PC.suspend_reload ∧ c1.g.reload_pid = c.g.reload_pid
      ∧ c1.g.shutdown_pid
          = (if collects e c.g.shutdown_pid then 0 else c.g.shutdown_pid)
      ∧ c1.trace = c.trace ++ suspensions [e] := by
  rw [step_suspend_reload argv c e hpc] at hs
  cases e with
  | deliver sig waits =>
    simp only [call_sigsuspend] at hs
    cases hh : handle c.g sig waits with
    | none => simp [hh] at hs
    | some g1 =>
      simp only [hh] at hs
      have hs := (Option.some.inj hs).symm
      obtain ⟨h1, h2, -⟩ := handle_spec c.g g1 sig waits hh
      rw [hc] at h2
      simp only [Bool.false_eq_true, if_false] at h2
      have hw : reload_wait g1 = (g1, PC.suspend_reload) := by
        simp [reload_wait, h2, hp]
      subst hs
      simp [hw, h2, h1, suspensions]
  | fork _ _ => simp at hs
  | getpid _ => simp at hs
  | wait _ => simp at hs

theorem shutdown_wait_step (argv : List String) (c c1 : Config) (e : Event)
    (hpc : c.pc = PC.suspend_shutdown) (hp : 0 < c.g.shutdown_pid)
    (hs : step argv c e = some c1) (hc : collects e c.g.shutdown_pid = false) :
    c1.pc = PC.suspend_shutdown ∧ c1.g.shutdown_pid = c.g.shutdown_pid
      ∧ c1.trace = c.trace ++ suspensions [e] := by
  rw [step_suspend_shutdown argv c e hpc] at hs
  cases e with
  | deliver sig waits =>
    simp only [call_sigsuspend] at hs
    cases hh : handle c.g sig waits with
    | none => simp [hh] at hs
    | some g1 =>
      simp only [hh] at hs
      have hs := (Option.some.inj hs).symm
      obtain ⟨h1, -⟩ := handle_spec c.g g1 sig waits hh
      rw [hc] at h1
      simp only [Bool.false_eq_true, if_false] at h1
      subst hs
      simp [shutdown_wait, h1, hp, suspensions]
  | fork _ _ => simp at hs
  | getpid _ => simp at hs
  | wait _ => simp at hs

/-- Deliveries that do not collect the tracked reload pid keep the supervisor
in the reload wait. -/
theorem reload_wait_run (argv : List String) (ds : List Event) (c : Config)
    (hpc : c.pc = PC.suspend_reload) (hp : 0 < c.g.reload_pid)
    (hds : ∀ e ∈ ds, delivered e = true ∧ collects e c.g.reload_pid = false) :
    ∃ c1, run_events argv c ds = some c1 ∧ c1.pc = PC.suspend_reload
      ∧ c1.g.reload_pid = c.g.reload_pid ∧ c1.trace = c.trace ++ suspensions ds := by
  induction ds generalizing c with
  | nil => exact ⟨c, rfl, hpc, rfl, by simp [suspensions]⟩
  | cons e es ih =>
    obtain ⟨hd, hc⟩ := hds e (List.mem_cons_self _ _)
    have hstep : ∃ c1, step argv c e = some c1 := by
      rw [step_suspend_reload argv c e hpc]
      cases e with
      | deliver sig waits =>
        obtain ⟨g1, -, h⟩ := call_sigsuspend_some c sig waits reload_wait hd
        exact ⟨_, h⟩
      | fork _ _ => simp [delivered] at hd
      | getpid _ => simp [delivered] at hd
      | wait _ => simp [delivered] at hd
    obtain ⟨c1, hc1⟩ := hstep
    obtain ⟨h1, h2, -, h4⟩ := reload_wait_step argv c c1 e hpc hp hc1 hc
    have hes : ∀ e ∈ es, delivered e = true ∧ collects e c1.g.reload_pid = false := by
      intro x hx
      rw [h2]
      exact hds x (List.mem_cons_of_mem _ hx)
    obtain ⟨c2, k1, k2, k3, k4⟩ := ih c1 h1 (by rw [h2]; exact hp) hes
    refine ⟨c2, by simp [run_events, hc1, k1], k2, by rw [k3, h2], ?_⟩
    rw [k4, h4]
    cases e <;> simp [suspensions]

theorem shutdown_wait_run (argv : List String) (ds : List Event) (c : Config)
    (hpc : c.pc = PC.suspend_shutdown) (hp : 0 < c.g.shutdown_pid)
    (hds : ∀ e ∈ ds, delivered e = true ∧ collects e c.g.shutdown_pid = false) :
    ∃ c1, run_events argv c ds = some c1 ∧ c1.pc = PC.suspend_shutdown
      ∧ c1.g.shutdown_pid = c.g.shutdown_pid
      ∧ c1.trace = c.trace ++ suspensions ds := by
  induction ds generalizing c with
  | nil => exact ⟨c, rfl, hpc, rfl, by simp [suspensions]⟩
  | cons e es ih =>
    obtain ⟨hd, hc⟩ := hds e (List.mem_cons_self _ _)
    have hstep : ∃ c1, step argv c e = some c1 := by
      rw [step_suspend_shutdown argv c e hpc]
      cases e with
      | deliver sig waits =>
        obtain ⟨g1, -, h⟩ := call_sigsuspend_some c sig waits
          (fun g1 => (g1, shutdown_wait g1)) hd
        exact ⟨_, h⟩
      | fork _ _ => simp [delivered] at hd
      | getpid _ => simp [delivered] at hd
      | wait _ => simp [delivered] at hd
    obtain ⟨c1, hc1⟩ := hstep
    obtain ⟨h1, h2, h4⟩ := shutdown_wait_step argv c c1 e hpc hp hc1 hc
    have hes : ∀ e ∈ es, delivered e = true ∧ collects e c1.g.shutdown_pid = false := by
      intro x hx
      rw [h2]
      exact hds x (List.mem_cons_of_mem _ hx)
    obtain ⟨c2, k1, k2, k3, k4⟩ := ih c1 h1 (by rw [h2]; exact hp) hes
    refine ⟨c2, by simp [run_events, hc1, k1], k2, by rw [k3, h2], ?_⟩
    rw [k4, h4]
    cases e <;> simp [suspensions]

/-- Leaving the reload wait takes a delivery of `SIGCHLD` that collects the
tracked pid. -/
theorem reload_wait_left (argv : List String) (es : List Event) (c c1 : Config)
    (hpc : c.pc = PC.suspend_reload) (hp : 0 < c.g.reload_pid)
    (hrun : run_events argv c es = some c1) (hleft : c1.pc ≠ PC.suspend_reload) :
    ∃ e ∈ es, collects e c.g.reload_pid = true := by
  induction es generalizing c with
  | nil =>
    simp only [run_events] at hrun
    have := Option.some.inj hrun
    subst this
    exact absurd hpc hleft
  | cons e es ih =>
    simp only [run_events] at hrun
    cases hs : step argv c e with
    | none => simp [hs] at hrun
    | some c2 =>
      simp only [hs] at hrun
      by_cases hc : collects e c.g.reload_pid = true
      · exact ⟨e, List.mem_cons_self _ _, hc⟩
      · have hc : collects e c.g.reload_pid = false := by simpa using hc
        obtain ⟨h1, h2, -⟩ := reload_wait_step argv c c2 e hpc hp hs hc
        obtain ⟨x, hx, hxc⟩ := ih c2 h1 (by rw [h2]; exact hp) hrun
        exact ⟨x, List.mem_cons_of_mem _ hx, by rw [← h2]; exact hxc⟩

/-! ## Calls of `run` made by `main` -/

theorem call_run_parent (argv : List String) (c : Config) (filename : Ptr)
    (ret : Int) (ex : Option Nat) (k : Int → Globals × PC) (h : ret ≠ 0) :
    call_run argv c filename ret ex k
      = { g := (k ret).1, pc := (k ret).2,
          trace := c.trace
            ++ (if ret = -1 then [Action.perror "minit: fork"] else [])
            ++ [Action.run filename ret] } := by
  simp only [call_run, run_parent argv filename ret ex h]
  by_cases h1 : ret = -1 <;> simp [h1]

theorem call_run_child (argv : List String) (c : Config) (filename : Ptr)
    (ex : Option Nat) (k : Int → Globals × PC) :
    (call_run argv c filename 0 ex k).g = c.g
    ∧ ((call_run argv c filename 0 ex k).pc = PC.execed
        ∨ ∃ status, (call_run argv c filename 0 ex k).pc = PC.exited status) := by
  cases ex with
  | none => simp [call_run, run]
  | some e =>
    by_cases h : (filename = default_startup ∨ filename = default_shutdown
            ∨ filename = default_reload) ∧ e = ENOENT
    · simp [call_run, run, h]
    · simp only [call_run, run, h]
      simp

theorem reload_wait_terminate (g : Globals) :
    (reload_wait g).1.terminate = g.terminate := by
  unfold reload_wait
  split_ifs <;> rfl

theorem handle_terminate_sticky (g g1 : Globals) (sig : Signal)
    (waits : List WaitRet) (h : handle g sig waits = some g1)
    (ht : g.terminate ≠ 0) : g1.terminate ≠ 0 := by
  obtain ⟨-, -, h3, -⟩ := handle_spec g g1 sig waits h
  rcases h3 with h3 | h3
  · rw [h3]; exact ht
  · rw [h3]; decide

theorem call_sigsuspend_terminate (c c1 : Config) (sig : Signal)
    (waits : List WaitRet) (k : Globals → Globals × PC)
    (hk : ∀ g, (k g).1.terminate = g.terminate)
    (h : call_sigsuspend c sig waits k = some c1) (ht : c.g.terminate ≠ 0) :
    c1.g.terminate ≠ 0 := by
  simp only [call_sigsuspend] at h
  cases hh : handle c.g sig waits with
  | none => simp [hh] at h
  | some g1 =>
    simp only [hh] at h
    have h := (Option.some.inj h).symm
    subst h
    simp only [hk]
    exact handle_terminate_sticky c.g g1 sig waits hh ht

theorem call_run_terminate (argv : List String) (c : Config) (filename : Ptr)
    (ret : Int) (ex : Option Nat) (k : Int → Globals × PC)
    (hk : ∀ pid, (k pid).1.terminate = c.g.terminate) :
    (call_run argv c filename ret ex k).g.terminate = c.g.terminate := by
  by_cases h : ret = 0
  · subst h
    rw [(call_run_child argv c filename ex k).1]
  · rw [call_run_parent argv c filename ret ex k h]
    exact hk ret

theorem step_terminate_sticky (argv : List String) (c c1 : Config) (e : Event)
    (h : step argv c e = some c1) (ht : c.g.terminate ≠ 0) :
    c1.g.terminate ≠ 0 := by
  unfold step at h
  split at h
  · have h := (Option.some.inj h).symm
    subst h
    rw [call_run_terminate argv c _ _ _ _ (fun _ => rfl)]
    exact ht
  · exact call_sigsuspend_terminate c c1 _ _ _ (fun _ => rfl) h ht
  · have h := (Option.some.inj h).symm
    subst h
    rw [call_run_terminate argv c _ _ _ _ (fun _ => by rw [reload_wait_terminate])]
    exact ht
  · exact call_sigsuspend_terminate c c1 _ _ _ reload_wait_terminate h ht
  · have h := (Option.some.inj h).symm
    subst h
    rw [call_run_terminate argv c _ _ _ _ (fun _ => rfl)]
    exact ht
  · exact call_sigsuspend_terminate c c1 _ _ _ (fun _ => rfl) h ht
  · split at h <;>
    · have h := (Option.some.inj h).symm
      subst h
      exact ht
  · split at h <;>
    · have h := (Option.some.inj h).symm
      subst h
      exact ht
  · simp at h

theorem run_events_terminate_sticky (argv : List String) (es : List Event)
    (c c1 : Config) (h : run_events argv c es = some c1)
    (ht : c.g.terminate ≠ 0) : c1.g.terminate ≠ 0 := by
  induction es generalizing c with
  | nil =>
    simp only [run_events] at h
    have h := Option.some.inj h
    subst h
    exact ht
  | cons e es ih =>
    simp only [run_events] at h
    cases hs : step argv c e with
    | none => simp [hs] at h
    | some c2 =>
      simp only [hs] at h
      exact ih c2 h (step_terminate_sticky argv c c2 e hs ht)

theorem collected_pos (waits : List WaitRet) : ∀ p ∈ collected waits, 0 < p := by
  intro p hp
  simp only [collected, List.mem_map] at hp
  obtain ⟨w, hw, rfl⟩ := hp
  have := List.mem_takeWhile_imp hw
  simpa using this

/-! ## Launching a tracked child, and the final steps -/

theorem run_events_chain (argv : List String) (es1 es2 : List Event)
    (c c1 c2 : Config) (h1 : run_events argv c es1 = some c1)
    (h2 : run_events argv c1 es2 = some c2) :
    run_events argv c (es1 ++ es2) = some c2 := by
  rw [run_events_append, h1]
  exact h2

theorem run_events_cons (argv : List String) (e : Event) (es : List Event)
    (c c1 c2 : Config) (h1 : step argv c e = some c1)
    (h2 : run_events argv c1 es = some c2) :
    run_events argv c (e :: es) = some c2 := by
  simp [run_events, h1, h2]

theorem run_events_single (argv : List String) (e : Event) (c c1 : Config)
    (h1 : step argv c e = some c1) : run_events argv c [e] = some c1 := by
  simp [run_events, h1]

theorem step_run_reload (argv : List String) (c : Config) (ret : Int)
    (ex : Option Nat) (hpc : c.pc = PC.run_reload) (h : ret ≠ 0) :
    step argv c (Event.fork ret ex)
      = some { g := (reload_wait { c.g with reload_pid := ret }).1,
               pc := (reload_wait { c.g with reload_pid := ret }).2,
               trace := c.trace
                 ++ (if ret = -1 then [Action.perror "minit: fork"] else [])
                 ++ [Action.run (reload_script argv) ret] } := by
  simp only [step, hpc]
  rw [call_run_parent argv c _ ret ex _ h]

theorem step_run_shutdown (argv : List String) (c : Config) (ret : Int)
    (ex : Option Nat) (hpc : c.pc = PC.run_shutdown) (h : ret ≠ 0) :
    step argv c (Event.fork ret ex)
      = some { g := { c.g with shutdown_pid := ret },
               pc := shutdown_wait { c.g with shutdown_pid := ret },
               trace := c.trace
                 ++ (if ret = -1 then [Action.perror "minit: fork"] else [])
                 ++ [Action.run (shutdown_script argv) ret] } := by
  simp only [step, hpc]
  rw [call_run_parent argv c _ ret ex _ h]

theorem step_run_startup (argv : List String) (c : Config) (ret : Int)
    (ex : Option Nat) (hpc : c.pc = PC.run_startup) (h : ret ≠ 0) :
    step argv c (Event.fork ret ex)
      = some { g := c.g, pc := run_forever c.g,
               trace := c.trace
                 ++ (if ret = -1 then [Action.perror "minit: fork"] else [])
                 ++ [Action.run (startup_script argv) ret] } := by
  simp only [step, hpc]
  rw [call_run_parent argv c _ ret ex _ h]

/-- The delivery of `SIGCHLD` that collects the tracked shutdown pid ends the
shutdown wait. -/
theorem shutdown_wait_end (argv : List String) (c : Config) (waits : List WaitRet)
    (hpc : c.pc = PC.suspend_shutdown)
    (hw : delivered (Event.deliver Signal.SIGCHLD waits) = true)
    (hcol : c.g.shutdown_pid ∈ collected waits) :
    ∃ c1, step argv c (Event.deliver Signal.SIGCHLD waits) = some c1
      ∧ c1.pc = PC.getpid ∧ c1.g.shutdown_pid = 0
      ∧ c1.trace = c.trace ++ [Action.sigsuspend Signal.SIGCHLD] := by
  rw [step_suspend_shutdown argv c _ hpc]
  obtain ⟨g1, hg, hc⟩ := call_sigsuspend_some c Signal.SIGCHLD waits
    (fun g1 => (g1, shutdown_wait g1)) hw
  obtain ⟨h1, -⟩ := handle_spec c.g g1 _ waits hg
  have h0 : g1.shutdown_pid = 0 := by
    rw [h1]
    simp [collects, hcol]
  exact ⟨_, hc, by simp [shutdown_wait, h0], h0, rfl⟩

/-- The drain loop `while(wait(NULL) > 0)`: positive results keep it going,
the first non-positive result ends it and `main` returns 0. -/
theorem drain_run (argv : List String) (rs : List Int) (r : Int) (c : Config)
    (hpc : c.pc = PC.wait) (hrs : ∀ x ∈ rs, 0 < x) (hr : r ≤ 0) :
    run_events argv c (rs.map Event.wait ++ [Event.wait r])
      = some { c with pc := PC.exited 0,
                      trace := c.trace ++ (rs ++ [r]).map Action.wait } := by
  induction rs generalizing c with
  | nil =>
    have h : ¬ r > 0 := by omega
    simp [run_events, step, hpc, h]
  | cons x xs ih =>
    have hx : x > 0 := hrs x (List.mem_cons_self _ _)
    have hxs : ∀ y ∈ xs, 0 < y := fun y hy => hrs y (List.mem_cons_of_mem _ hy)
    have hs : step argv c (Event.wait x)
        = some { c with trace := c.trace ++ [Action.wait x] } := by
      simp [step, hpc, hx]
    have hrec := ih { c with trace := c.trace ++ [Action.wait x] } hpc hxs
    rw [List.map_cons, List.cons_append]
    rw [run_events_cons argv _ _ c _ _ hs hrec]
    simp

/-! ## The reload wait, the termination path, stickiness, failed forks -/

/-- C2: once `run` has launched the reload child (`fork` returned the positive
pid `p`), the supervisor is in the reload wait with `reload_pid = p`. Every
sequence of deliveries none of which collects `p` (exits of other children,
termination-class signals, reload-class signals) leaves it in the reload
wait, still tracking `p`, having done nothing but complete `sigsuspend` calls,
so the shutdown script is not launched; and any execution that leaves the
reload wait contains a delivery of `SIGCHLD` that collected `p`. -/
theorem reload_wait_ends_only_on_reload_child (argv : List String) (c0 : Config)
    (p : Int) (ex : Option Nat) (hpc : c0.pc = PC.run_reload) (hp : 0 < p) :
    ∃ c, step argv c0 (Event.fork p ex) = some c
      ∧ c.pc = PC.suspend_reload ∧ c.g.reload_pid = p
      ∧ (∀ ds, (∀ e ∈ ds, delivered e = true ∧ collects e p = false) →
          ∃ c1, run_events argv c ds = some c1 ∧ c1.pc = PC.suspend_reload
            ∧ c1.g.reload_pid = p ∧ c1.trace = c.trace ++ suspensions ds
            ∧ launches (shutdown_script argv) c1.trace
                = launches (shutdown_script argv) c.trace)
      ∧ (∀ es c1, run_events argv c es = some c1 → c1.pc ≠ PC.suspend_reload →
          ∃ e ∈ es, collects e p = true) := by
  have hne : p ≠ 0 := by omega
  have hw : reload_wait { c0.g with reload_pid := p }
      = ({ c0.g with reload_pid := p }, PC.suspend_reload) := by
    simp [reload_wait, hp]
  refine ⟨_, step_run_reload argv c0 p ex hpc hne, by rw [hw], by rw [hw], ?_, ?_⟩
  · intro ds hds
    obtain ⟨c1, h1, h2, h3, h4⟩ := reload_wait_run argv ds
      { g := (reload_wait { c0.g with reload_pid := p }).1,
        pc := (reload_wait { c0.g with reload_pid := p }).2,
        trace := c0.trace ++ (if p = -1 then [Action.perror "minit: fork"] else [])
                 ++ [Action.run (reload_script argv) p] }
      (by rw [hw]) (by rw [hw]; exact hp) (by rw [hw]; exact hds)
    refine ⟨c1, h1, h2, by rw [h3, hw], h4, ?_⟩
    rw [h4, launches_append, launches_suspensions]
    rfl
  · intro es c1 hrun hleft
    have := reload_wait_left argv es _ c1 (by rw [hw]) (by rw [hw]; exact hp) hrun hleft
    rw [hw] at this
    exact this

theorem reload_wait_ends_only_on_reload_child_witness :
    (0 : Int) < 5
    ∧ ∃ c, step [] (Config.mk (Globals.mk 0 0 0 1) PC.run_reload [])
          (Event.fork 5 none) = some c
      ∧ c.pc = PC.suspend_reload ∧ c.g.reload_pid = 5
      ∧ (∀ ds, (∀ e ∈ ds, delivered e = true ∧ collects e 5 = false) →
          ∃ c1, run_events [] c ds = some c1 ∧ c1.pc = PC.suspend_reload
            ∧ c1.g.reload_pid = 5 ∧ c1.trace = c.trace ++ suspensions ds
            ∧ launches (shutdown_script []) c1.trace
                = launches (shutdown_script []) c.trace)
      ∧ (∀ es c1, run_events [] c es = some c1 → c1.pc ≠ PC.suspend_reload →
          ∃ e ∈ es, collects e 5 = true) :=
  ⟨by decide,
    reload_wait_ends_only_on_reload_child []
      (Config.mk (Globals.mk 0 0 0 1) PC.run_reload []) 5 none rfl (by decide)⟩

/-- C7: on the termination path (control at `run(shutdown_script, ...)`), with
`fork` returning the positive pid `p`: the supervisor stays in the shutdown
wait through every sequence of deliveries that does not collect `p`; the
delivery of `SIGCHLD` that collects `p` clears `shutdown_pid` and moves it on
to `getpid`; if `getpid` is not 1 it exits with status 0 without any `kill`;
if `getpid` is 1 it sends `kill(-1, SIGTERM)`, drains children with `wait`
until a non-positive result, and exits with status 0. In both complete
executions the shutdown script was launched exactly once. -/
theorem termination_path (argv : List String) (c : Config) (p : Int)
    (ex : Option Nat) (ds : List Event) (waits : List WaitRet) (q : Int)
    (rs : List Int) (r : Int)
    (hpc : c.pc = PC.run_shutdown) (hp : 0 < p)
    (hds : ∀ e ∈ ds, delivered e = true ∧ collects e p = false)
    (hw : delivered (Event.deliver Signal.SIGCHLD waits) = true)
    (hcol : p ∈ collected waits) (hq : q ≠ 1)
    (hrs : ∀ x ∈ rs, 0 < x) (hr : r ≤ 0) :
    (∃ c1, run_events argv c (Event.fork p ex :: ds) = some c1
        ∧ c1.pc = PC.suspend_shutdown ∧ c1.g.shutdown_pid = p
        ∧ c1.trace = c.trace ++ [Action.run (shutdown_script argv) p]
            ++ suspensions ds)
    ∧ (∃ c2, run_events argv c
          (Event.fork p ex :: ds ++ [Event.deliver Signal.SIGCHLD waits]) = some c2
        ∧ c2.pc = PC.getpid ∧ c2.g.shutdown_pid = 0
        ∧ c2.trace = c.trace ++ [Action.run (shutdown_script argv) p]
            ++ suspensions ds ++ [Action.sigsuspend Signal.SIGCHLD])
    ∧ (∃ c3, run_events argv c
          (Event.fork p ex :: ds
            ++ [Event.deliver Signal.SIGCHLD waits, Event.getpid q]) = some c3
        ∧ c3.pc = PC.exited 0
        ∧ c3.trace = c.trace ++ [Action.run (shutdown_script argv) p]
            ++ suspensions ds ++ [Action.sigsuspend Signal.SIGCHLD]
        ∧ launches (shutdown_script argv) c3.trace
            = launches (shutdown_script argv) c.trace + 1)
    ∧ (∃ c4, run_events argv c
          (Event.fork p ex :: ds
            ++ [Event.deliver Signal.SIGCHLD waits, Event.getpid 1]
            ++ (rs.map Event.wait ++ [Event.wait r])) = some c4
        ∧ c4.pc = PC.exited 0
        ∧ c4.trace = c.trace ++ [Action.run (shutdown_script argv) p]
            ++ suspensions ds
            ++ [Action.sigsuspend Signal.SIGCHLD, Action.kill (-1) Signal.SIGTERM]
            ++ (rs ++ [r]).map Action.wait
        ∧ launches (shutdown_script argv) c4.trace
            = launches (shutdown_script argv) c.trace + 1) := by
  have hne : p ≠ 0 := by omega
  have hne1 : ¬ p = -1 := by omega
  -- the launch
  have h0 := step_run_shutdown argv c p ex hpc hne
  have hsw : shutdown_wait { c.g with shutdown_pid := p } = PC.suspend_shutdown := by
    simp [shutdown_wait, hp]
  rw [hsw, if_neg hne1, List.append_nil] at h0
  -- the wait
  obtain ⟨c1, k1, k2, k3, k4⟩ := shutdown_wait_run argv ds
    { g := { c.g with shutdown_pid := p }, pc := PC.suspend_shutdown,
      trace := c.trace ++ [Action.run (shutdown_script argv) p] } rfl hp hds
  have k3 : c1.g.shutdown_pid = p := k3
  have k4 : c1.trace = c.trace ++ [Action.run (shutdown_script argv) p]
      ++ suspensions ds := k4
  have r1 : run_events argv c (Event.fork p ex :: ds) = some c1 :=
    run_events_cons argv _ _ c _ _ h0 k1
  -- the end of the wait
  obtain ⟨c2, m1, m2, m3, m4⟩ := shutdown_wait_end argv c1 waits k2 hw
    (by rw [k3]; exact hcol)
  have r2 : run_events argv c
      (Event.fork p ex :: ds ++ [Event.deliver Signal.SIGCHLD waits]) = some c2 :=
    run_events_chain argv _ _ c c1 c2 r1 (run_events_single argv _ c1 c2 m1)
  have t2 : c2.trace = c.trace ++ [Action.run (shutdown_script argv) p]
      ++ suspensions ds ++ [Action.sigsuspend Signal.SIGCHLD] := by
    rw [m4, k4]
  -- getpid
  have g3 : step argv c2 (Event.getpid q) = some { c2 with pc := PC.exited 0 } := by
    simp [step, m2, hq]
  have g4 : step argv c2 (Event.getpid 1)
      = some { c2 with pc := PC.wait,
                       trace := c2.trace ++ [Action.kill (-1) Signal.SIGTERM] } := by
    simp [step, m2]
  have r3 : run_events argv c
      (Event.fork p ex :: ds
        ++ [Event.deliver Signal.SIGCHLD waits, Event.getpid q])
      = some { c2 with pc := PC.exited 0 } := by
    have := run_events_chain argv _ _ c c2 _ r2 (run_events_single argv _ c2 _ g3)
    simpa using this
  have d4 := drain_run argv rs r
    { c2 with pc := PC.wait, trace := c2.trace ++ [Action.kill (-1) Signal.SIGTERM] }
    rfl hrs hr
  have r4 : run_events argv c
      (Event.fork p ex :: ds
        ++ [Event.deliver Signal.SIGCHLD waits, Event.getpid 1]
        ++ (rs.map Event.wait ++ [Event.wait r]))
      = some { c2 with pc := PC.exited 0,
                       trace := c2.trace ++ [Action.kill (-1) Signal.SIGTERM]
                         ++ (rs ++ [r]).map Action.wait } := by
    have a := run_events_chain argv _ _ c c2 _ r2 (run_events_single argv _ c2 _ g4)
    have b := run_events_chain argv _ _ c _ _ a d4
    simpa using b
  have hl : ∀ (t : List Action), launches (shutdown_script argv) t = 0 →
      launches (shutdown_script argv)
        (c.trace ++ [Action.run (shutdown_script argv) p] ++ suspensions ds ++ t)
        = launches (shutdown_script argv) c.trace + 1 := by
    intro t ht
    simp [launches_append, launches_suspensions, launches, ht]
  refine ⟨⟨c1, r1, k2, k3, k4⟩, ⟨c2, r2, m2, m3, t2⟩, ⟨_, r3, rfl, t2, ?_⟩,
    ⟨_, r4, rfl, ?_, ?_⟩⟩
  · show launches (shutdown_script argv) c2.trace = _
    rw [t2]
    exact hl _ (by simp [launches])
  · show c2.trace ++ [Action.kill (-1) Signal.SIGTERM] ++ (rs ++ [r]).map Action.wait = _
    rw [t2]
    simp
  · show launches (shutdown_script argv)
      (c2.trace ++ [Action.kill (-1) Signal.SIGTERM] ++ (rs ++ [r]).map Action.wait) = _
    rw [t2]
    have hz : launches (shutdown_script argv)
        ([Action.sigsuspend Signal.SIGCHLD, Action.kill (-1) Signal.SIGTERM]
          ++ (rs ++ [r]).map Action.wait) = 0 := by
      have : ∀ l : List Int, launches (shutdown_script argv) (l.map Action.wait) = 0 := by
        intro l
        induction l with
        | nil => simp [launches]
        | cons a t ih => simp [launches, ih]
      have h2 := this (rs ++ [r])
      simp only [List.cons_append, List.nil_append, launches]
      exact h2
    have := hl _ hz
    simpa [List.append_assoc] using this

theorem termination_path_witness :
    ((0 : Int) < 6 ∧ (2 : Int) ≠ 1 ∧ (-1 : Int) ≤ 0
      ∧ (6 : Int) ∈ collected [WaitRet.mk 6 0, WaitRet.mk 0 0])
    ∧ ∃ c4, run_events [] (Config.mk (Globals.mk 0 0 1 0) PC.run_shutdown [])
          (Event.fork 6 none
            :: [Event.deliver Signal.SIGHUP [],
                Event.deliver Signal.SIGCHLD [WaitRet.mk 3 0, WaitRet.mk 0 0]]
            ++ [Event.deliver Signal.SIGCHLD [WaitRet.mk 6 0, WaitRet.mk 0 0],
                Event.getpid 1]
            ++ ([8, 9].map Event.wait ++ [Event.wait (-1)])) = some c4
        ∧ c4.pc = PC.exited 0
        ∧ c4.trace = [Action.run (shutdown_script []) 6,
            Action.sigsuspend Signal.SIGHUP, Action.sigsuspend Signal.SIGCHLD,
            Action.sigsuspend Signal.SIGCHLD, Action.kill (-1) Signal.SIGTERM,
            Action.wait 8, Action.wait 9, Action.wait (-1)] :=
  ⟨by decide,
    (termination_path [] (Config.mk (Globals.mk 0 0 1 0) PC.run_shutdown []) 6 none
      [Event.deliver Signal.SIGHUP [],
        Event.deliver Signal.SIGCHLD [WaitRet.mk 3 0, WaitRet.mk 0 0]]
      [WaitRet.mk 6 0, WaitRet.mk 0 0] 2 [8, 9] (-1)
      rfl (by decide) (by decide) (by decide) (by decide) (by decide) (by decide)
      (by decide)).2.2.2.imp (fun _ h => ⟨h.1, h.2.1, h.2.2.1⟩)⟩

/-- C8: `terminate` is sticky. From any state in which `terminate` is set, it
is still set after any handler invocation (`handle_child`,
`handle_termination`, `handle_reload`), after any single step of `main`
(idle, reload launch, reload wait and clearing of `reload`, shutdown launch
and wait, final steps), and after any sequence of steps. -/
theorem terminate_is_sticky (argv : List String) (c : Config)
    (ht : c.g.terminate ≠ 0) :
    (∀ sig waits g1, handle c.g sig waits = some g1 → g1.terminate ≠ 0)
    ∧ (∀ e c1, step argv c e = some c1 → c1.g.terminate ≠ 0)
    ∧ (∀ es c1, run_events argv c es = some c1 → c1.g.terminate ≠ 0) :=
  ⟨fun sig waits g1 h => handle_terminate_sticky c.g g1 sig waits h ht,
   fun e c1 h => step_terminate_sticky argv c c1 e h ht,
   fun es c1 h => run_events_terminate_sticky argv es c c1 h ht⟩

theorem terminate_is_sticky_witness :
    (Config.mk (Globals.mk 0 5 1 1) PC.suspend_reload []).g.terminate ≠ 0
    ∧ run_events [] (Config.mk (Globals.mk 0 5 1 1) PC.suspend_reload [])
        [Event.deliver Signal.SIGCHLD [WaitRet.mk 5 0, WaitRet.mk 0 0],
         Event.fork 6 none, Event.deliver Signal.SIGHUP []]
      = some (Config.mk (Globals.mk 6 0 1 1) PC.suspend_shutdown
          [Action.sigsuspend Signal.SIGCHLD, Action.run (shutdown_script []) 6,
           Action.sigsuspend Signal.SIGHUP])
    ∧ (Globals.mk 6 0 1 1).terminate ≠ 0 :=
  ⟨by decide, by decide,
    (terminate_is_sticky [] (Config.mk (Globals.mk 0 5 1 1) PC.suspend_reload [])
      (by decide)).2.2
      [Event.deliver Signal.SIGCHLD [WaitRet.mk 5 0, WaitRet.mk 0 0],
       Event.fork 6 none, Event.deliver Signal.SIGHUP []]
      (Config.mk (Globals.mk 6 0 1 1) PC.suspend_shutdown
          [Action.sigsuspend Signal.SIGCHLD, Action.run (shutdown_script []) 6,
           Action.sigsuspend Signal.SIGHUP])
      (by decide)⟩

/-- C9: a failed `fork` never hangs the supervisor. When `run` returns -1 for
the reload script, the supervisor reports the failure, suspends zero times,
clears `reload` and is back at `run_forever`, which is the idle wait when
termination has not been requested. When `run` returns -1 for the shutdown
script, it suspends zero times and proceeds to `getpid`. The handle then
holds -1, which no collected pid equals, and which no handler changes. -/
theorem fork_failure_never_hangs (argv : List String) (c : Config)
    (ex : Option Nat) :
    (c.pc = PC.run_reload →
      ∃ c1, step argv c (Event.fork (-1) ex) = some c1
        ∧ c1.trace = c.trace
            ++ [Action.perror "minit: fork", Action.run (reload_script argv) (-1)]
        ∧ c1.g.reload = 0 ∧ c1.g.reload_pid = -1
        ∧ c1.pc = run_forever c1.g
        ∧ (c.g.terminate = 0 → c1.pc = PC.suspend_idle))
    ∧ (c.pc = PC.run_shutdown →
      ∃ c1, step argv c (Event.fork (-1) ex) = some c1
        ∧ c1.trace = c.trace
            ++ [Action.perror "minit: fork", Action.run (shutdown_script argv) (-1)]
        ∧ c1.g.shutdown_pid = -1
        ∧ c1.pc = PC.getpid)
    ∧ (∀ waits, (-1 : Int) ∉ collected waits)
    ∧ (∀ g sig waits g1, handle g sig waits = some g1 →
        (g.reload_pid = -1 → g1.reload_pid = -1)
        ∧ (g.shutdown_pid = -1 → g1.shutdown_pid = -1)) := by
  have hnc : ∀ waits, (-1 : Int) ∉ collected waits := by
    intro waits hmem
    have := collected_pos waits (-1) hmem
    omega
  refine ⟨?_, ?_, hnc, ?_⟩
  · intro hpc
    have hw : reload_wait { c.g with reload_pid := -1 }
        = ({ c.g with reload_pid := -1, reload := 0 },
           run_forever { c.g with reload_pid := -1, reload := 0 }) := by
      simp [reload_wait]
    refine ⟨_, step_run_reload argv c (-1) ex hpc (by decide), ?_, ?_, ?_, ?_, ?_⟩
    · simp
    · rw [hw]
    · rw [hw]
    · rw [hw]
    · intro ht
      rw [hw]
      simp [run_forever, ht]
  · intro hpc
    refine ⟨_, step_run_shutdown argv c (-1) ex hpc (by decide), ?_, rfl, ?_⟩
    · simp
    · simp [shutdown_wait]
  · intro g sig waits g1 h
    obtain ⟨h1, h2, -⟩ := handle_spec g g1 sig waits h
    constructor
    · intro hr
      rw [h2, hr]
      have : collects (Event.deliver sig waits) (-1) = false := by
        cases sig <;> simp [collects, hnc]
      simp [this]
    · intro hs
      rw [h1, hs]
      have : collects (Event.deliver sig waits) (-1) = false := by
        cases sig <;> simp [collects, hnc]
      simp [this]

theorem fork_failure_never_hangs_witness :
    ((Config.mk (Globals.mk 0 0 0 1) PC.run_reload []).pc = PC.run_reload
      ∧ (Config.mk (Globals.mk 0 0 0 1) PC.run_reload []).g.terminate = 0
      ∧ ∃ c1, step [] (Config.mk (Globals.mk 0 0 0 1) PC.run_reload [])
            (Event.fork (-1) none) = some c1
          ∧ c1.trace = (Config.mk (Globals.mk 0 0 0 1) PC.run_reload []).trace
              ++ [Action.perror "minit: fork", Action.run (reload_script []) (-1)]
          ∧ c1.g.reload = 0 ∧ c1.g.reload_pid = -1
          ∧ c1.pc = run_forever c1.g
          ∧ ((Config.mk (Globals.mk 0 0 0 1) PC.run_reload []).g.terminate = 0 →
              c1.pc = PC.suspend_idle))
    ∧ ((Config.mk (Globals.mk 0 0 1 0) PC.run_shutdown []).pc = PC.run_shutdown
      ∧ ∃ c1, step [] (Config.mk (Globals.mk 0 0 1 0) PC.run_shutdown [])
            (Event.fork (-1) none) = some c1
          ∧ c1.trace = (Config.mk (Globals.mk 0 0 1 0) PC.run_shutdown []).trace
              ++ [Action.perror "minit: fork", Action.run (shutdown_script []) (-1)]
          ∧ c1.g.shutdown_pid = -1
          ∧ c1.pc = PC.getpid) :=
  ⟨⟨rfl, rfl,
    (fork_failure_never_hangs [] (Config.mk (Globals.mk 0 0 0 1) PC.run_reload [])
      none).1 rfl⟩,
   ⟨rfl,
    (fork_failure_never_hangs [] (Config.mk (Globals.mk 0 0 1 0) PC.run_shutdown [])
      none).2.1 rfl⟩⟩

/-! ## What holds along every execution of the supervisor -/

theorem startup_script_ne_reload (argv : List String) :
    startup_script argv ≠ reload_script argv := by
  unfold startup_script reload_script script default_startup default_reload
  split_ifs <;> simp

theorem shutdown_script_ne_reload (argv : List String) :
    shutdown_script argv ≠ reload_script argv := by
  unfold shutdown_script reload_script script default_shutdown default_reload
  split_ifs <;> simp

theorem launches_run_snoc (f f1 : Ptr) (t err : List Action) (pid : Int)
    (herr : launches f err = 0) :
    launches f (t ++ err ++ [Action.run f1 pid])
      = launches f t + (if f1 = f then 1 else 0) := by
  simp [launches_append, launches, herr]

theorem launches_fork_err (f : Ptr) (ret : Int) :
    launches f (if ret = -1 then [Action.perror "minit: fork"] else []) = 0 := by
  split_ifs <;> simp [launches]

theorem handle_reload_signal (g g1 : Globals) (sig : Signal) (waits : List WaitRet)
    (hr : reload_signal (Event.deliver sig waits) = true)
    (h : handle g sig waits = some g1) :
    g1 = { g with reload := 1 } := by
  cases sig <;> simp [reload_signal] at hr <;>
    simpa [handle, handle_reload] using h.symm

theorem step_fork_of_run (argv : List String) (c c1 : Config) (e : Event)
    (hpc : c.pc = PC.run_startup ∨ c.pc = PC.run_reload ∨ c.pc = PC.run_shutdown)
    (h : step argv c e = some c1) : ∃ ret ex, e = Event.fork ret ex := by
  cases e with
  | fork ret ex => exact ⟨ret, ex, rfl⟩
  | deliver _ _ => rcases hpc with hpc | hpc | hpc <;> simp [step, hpc] at h
  | getpid _ => rcases hpc with hpc | hpc | hpc <;> simp [step, hpc] at h
  | wait _ => rcases hpc with hpc | hpc | hpc <;> simp [step, hpc] at h

theorem call_sigsuspend_eq (c c1 : Config) (sig : Signal) (waits : List WaitRet)
    (k : Globals → Globals × PC) (h : call_sigsuspend c sig waits k = some c1) :
    ∃ g1, handle c.g sig waits = some g1
      ∧ c1 = { g := (k g1).1, pc := (k g1).2,
               trace := c.trace ++ [Action.sigsuspend sig] } := by
  simp only [call_sigsuspend] at h
  cases hh : handle c.g sig waits with
  | none => simp [hh] at h
  | some g1 =>
    simp only [hh] at h
    exact ⟨g1, rfl, (Option.some.inj h).symm⟩

theorem launches_sigsuspend_snoc (f : Ptr) (t : List Action) (sig : Signal) :
    launches f (t ++ [Action.sigsuspend sig]) = launches f t := by
  simp [launches_append, launches]

theorem reload_signals_single (e : Event) :
    reload_signals [e] = if reload_signal e = true then 1 else 0 := by
  by_cases h : reload_signal e = true <;> simp [reload_signals, h]

theorem reload_signals_cons (e : Event) (es : List Event) :
    reload_signals (e :: es) = reload_signals [e] + reload_signals es := by
  by_cases h : reload_signal e = true <;> simp [reload_signals, h, Nat.add_comm]

theorem inv_step_run_startup (argv : List String) (c : Config) (R : Nat) (ret : Int)
    (ex : Option Nat) (c1 : Config) (hpc : c.pc = PC.run_startup)
    (hinv : reachable_inv argv c R) (hret : ret ≠ 0)
    (h : step argv c (Event.fork ret ex) = some c1) :
    reachable_inv argv c1 R := by
  rw [step_run_startup argv c ret ex hpc hret] at h
  have h := (Option.some.inj h).symm
  simp only [reachable_inv, hpc] at hinv
  obtain ⟨hL, ht, hr, hR⟩ := hinv
  have hrf : run_forever c.g = PC.suspend_idle := by simp [run_forever, ht, hr]
  subst h
  simp only [reachable_inv, hrf]
  rw [launches_run_snoc _ _ _ _ _ (launches_fork_err _ ret),
    if_neg (startup_script_ne_reload argv)]
  exact ⟨by omega, ht, hr, by omega⟩

theorem inv_step_run_reload (argv : List String) (c : Config) (R : Nat) (ret : Int)
    (ex : Option Nat) (c1 : Config) (hpc : c.pc = PC.run_reload)
    (hinv : reachable_inv argv c R) (hret : ret ≠ 0)
    (h : step argv c (Event.fork ret ex) = some c1) :
    reachable_inv argv c1 R := by
  rw [step_run_reload argv c ret ex hpc hret] at h
  have h := (Option.some.inj h).symm
  simp only [reachable_inv, hpc] at hinv
  obtain ⟨hL, ht, hr, hR⟩ := hinv
  subst h
  by_cases hp : ret > 0
  · have hw : reload_wait { c.g with reload_pid := ret }
        = ({ c.g with reload_pid := ret }, PC.suspend_reload) := by
      simp [reload_wait, hp]
    simp only [reachable_inv, hw]
    rw [launches_run_snoc _ _ _ _ _ (launches_fork_err _ ret), if_pos rfl]
    exact ⟨by omega, hr, hp, by omega⟩
  · have hw : reload_wait { c.g with reload_pid := ret }
        = ({ c.g with reload_pid := ret, reload := 0 }, PC.suspend_idle) := by
      simp [reload_wait, hp, run_forever, ht]
    simp only [reachable_inv, hw]
    rw [launches_run_snoc _ _ _ _ _ (launches_fork_err _ ret), if_pos rfl]
    exact ⟨by omega, ht, trivial, by omega⟩

theorem inv_step_run_shutdown (argv : List String) (c : Config) (R : Nat) (ret : Int)
    (ex : Option Nat) (c1 : Config) (hpc : c.pc = PC.run_shutdown)
    (hinv : reachable_inv argv c R) (hret : ret ≠ 0)
    (h : step argv c (Event.fork ret ex) = some c1) :
    reachable_inv argv c1 R := by
  rw [step_run_shutdown argv c ret ex hpc hret] at h
  have h := (Option.some.inj h).symm
  simp only [reachable_inv, hpc] at hinv
  obtain ⟨hL, ht, hr⟩ := hinv
  subst h
  have hl := launches_run_snoc (reload_script argv) (shutdown_script argv) c.trace
    (if ret = -1 then [Action.perror "minit: fork"] else []) ret
    (launches_fork_err _ ret)
  rw [if_neg (shutdown_script_ne_reload argv)] at hl
  by_cases hp : ret > 0
  · have hw : shutdown_wait { c.g with shutdown_pid := ret } = PC.suspend_shutdown := by
      simp [shutdown_wait, hp]
    simp only [reachable_inv, hw, hl]
    exact ⟨by omega, ht⟩
  · have hw : shutdown_wait { c.g with shutdown_pid := ret } = PC.getpid := by
      simp [shutdown_wait, hp]
    simp only [reachable_inv, hw, hl]
    exact ⟨by omega, ht⟩

theorem inv_step_suspend_idle (argv : List String) (c : Config) (R : Nat)
    (e : Event) (c1 : Config) (hpc : c.pc = PC.suspend_idle)
    (hinv : reachable_inv argv c R) (h : step argv c e = some c1) :
    reachable_inv argv c1 (R + reload_signals [e]) := by
  rw [step_suspend_idle argv c e hpc] at h
  simp only [reachable_inv, hpc] at hinv
  obtain ⟨hL, ht, hr, hR⟩ := hinv
  cases e with
  | deliver sig waits =>
    obtain ⟨g1, hg, hc1⟩ := call_sigsuspend_eq c c1 sig waits _ h
    subst hc1
    rw [reload_signals_single]
    by_cases hrs : reload_signal (Event.deliver sig waits) = true
    · have hg1 := handle_reload_signal c.g g1 sig waits hrs hg
      subst hg1
      have hrf : run_forever { c.g with reload := 1 } = PC.run_reload := by
        simp [run_forever, ht]
      simp only [reachable_inv, hrf, launches_sigsuspend_snoc, hrs, if_true]
      exact ⟨by omega, ht, by decide, by omega⟩
    · have hrs : reload_signal (Event.deliver sig waits) = false := by simpa using hrs
      obtain ⟨-, -, h3, -, h5, -⟩ := handle_spec c.g g1 sig waits hg
      have hr1 : g1.reload = 0 := by rw [h5 hrs, hr]
      simp only [hrs, Bool.false_eq_true, if_false, Nat.add_zero]
      by_cases ht1 : g1.terminate = 0
      · have hrf : run_forever g1 = PC.suspend_idle := by simp [run_forever, ht1, hr1]
        simp only [reachable_inv, hrf, launches_sigsuspend_snoc]
        exact ⟨hL, ht1, hr1, hR⟩
      · have hrf : run_forever g1 = PC.run_shutdown := by simp [run_forever, ht1, hr1]
        simp only [reachable_inv, hrf, launches_sigsuspend_snoc]
        exact ⟨hL, ht1, hr1⟩
  | fork _ _ => simp at h
  | getpid _ => simp at h
  | wait _ => simp at h

theorem inv_step_suspend_reload (argv : List String) (c : Config) (R : Nat)
    (e : Event) (c1 : Config) (hpc : c.pc = PC.suspend_reload)
    (hinv : reachable_inv argv c R) (h : step argv c e = some c1) :
    reachable_inv argv c1 (R + reload_signals [e]) := by
  rw [step_suspend_reload argv c e hpc] at h
  simp only [reachable_inv, hpc] at hinv
  obtain ⟨hL, hr, hp, h1⟩ := hinv
  cases e with
  | deliver sig waits =>
    obtain ⟨g1, hg, hc1⟩ := call_sigsuspend_eq c c1 sig waits _ h
    subst hc1
    obtain ⟨-, -, -, h4, -⟩ := handle_spec c.g g1 sig waits hg
    have hr1 : g1.reload ≠ 0 := by
      rcases h4 with h4 | h4
      · rw [h4]; exact hr
      · rw [h4]; decide
    have hle : launches (reload_script argv) c.trace
        ≤ R + reload_signals [Event.deliver sig waits] := by omega
    by_cases hp1 : g1.reload_pid > 0
    · have hw : reload_wait g1 = (g1, PC.suspend_reload) := by simp [reload_wait, hp1]
      simp only [reachable_inv, hw, launches_sigsuspend_snoc]
      exact ⟨hle, hr1, hp1, h1⟩
    · by_cases ht1 : g1.terminate = 0
      · have hw : reload_wait g1 = ({ g1 with reload := 0 }, PC.suspend_idle) := by
          simp [reload_wait, hp1, run_forever, ht1]
        simp only [reachable_inv, hw, launches_sigsuspend_snoc]
        exact ⟨hle, ht1, trivial, fun _ => h1⟩
      · have hw : reload_wait g1 = ({ g1 with reload := 0 }, PC.run_shutdown) := by
          simp [reload_wait, hp1, run_forever, ht1]
        simp only [reachable_inv, hw, launches_sigsuspend_snoc]
        exact ⟨hle, ht1, trivial⟩
  | fork _ _ => simp at h
  | getpid _ => simp at h
  | wait _ => simp at h

theorem inv_step_suspend_shutdown (argv : List String) (c : Config) (R : Nat)
    (e : Event) (c1 : Config) (hpc : c.pc = PC.suspend_shutdown)
    (hinv : reachable_inv argv c R) (h : step argv c e = some c1) :
    reachable_inv argv c1 (R + reload_signals [e]) := by
  have hs := h
  rw [step_suspend_shutdown argv c e hpc] at h
  simp only [reachable_inv, hpc] at hinv
  obtain ⟨hL, ht⟩ := hinv
  have ht1 := step_terminate_sticky argv c c1 e hs ht
  cases e with
  | deliver sig waits =>
    obtain ⟨g1, hg, hc1⟩ := call_sigsuspend_eq c c1 sig waits _ h
    subst hc1
    have hle : launches (reload_script argv) c.trace
        ≤ R + reload_signals [Event.deliver sig waits] := by omega
    by_cases hp1 : g1.shutdown_pid > 0
    · have hw : shutdown_wait g1 = PC.suspend_shutdown := by simp [shutdown_wait, hp1]
      simp only [reachable_inv, hw, launches_sigsuspend_snoc]
      exact ⟨hle, ht1⟩
    · have hw : shutdown_wait g1 = PC.getpid := by simp [shutdown_wait, hp1]
      simp only [reachable_inv, hw, launches_sigsuspend_snoc]
      exact ⟨hle, ht1⟩
  | fork _ _ => simp at h
  | getpid _ => simp at h
  | wait _ => simp at h

theorem inv_step_final (argv : List String) (c : Config) (R : Nat)
    (e : Event) (c1 : Config) (hpc : c.pc = PC.getpid ∨ c.pc = PC.wait)
    (hinv : reachable_inv argv c R) (h : step argv c e = some c1) :
    reachable_inv argv c1 (R + reload_signals [e]) := by
  have ht : c.g.terminate ≠ 0 := by
    rcases hpc with hpc | hpc <;> simp only [reachable_inv, hpc] at hinv <;> exact hinv.2
  have hL : launches (reload_script argv) c.trace ≤ R := hinv.1
  rcases hpc with hpc | hpc
  · cases e with
    | getpid q =>
      by_cases hq : q = 1
      · simp only [step, hpc, hq, if_true] at h
        have h := (Option.some.inj h).symm
        subst h
        simp only [reachable_inv, launches_append, launches]
        exact ⟨by simp [reload_signals]; omega, ht⟩
      · simp only [step, hpc, hq, if_false] at h
        have h := (Option.some.inj h).symm
        subst h
        simp only [reachable_inv]
        exact ⟨by simp [reload_signals]; omega, ht⟩
    | fork _ _ => simp [step, hpc] at h
    | deliver _ _ => simp [step, hpc] at h
    | wait _ => simp [step, hpc] at h
  · cases e with
    | wait r =>
      by_cases hr : r > 0
      · simp only [step, hpc, hr, if_true] at h
        have h := (Option.some.inj h).symm
        subst h
        simp only [reachable_inv, hpc, launches_append, launches]
        exact ⟨by simp [reload_signals]; omega, ht⟩
      · simp only [step, hpc, hr, if_false] at h
        have h := (Option.some.inj h).symm
        subst h
        simp only [reachable_inv, launches_append, launches]
        exact ⟨by simp [reload_signals]; omega, ht⟩
    | fork _ _ => simp [step, hpc] at h
    | deliver _ _ => simp [step, hpc] at h
    | getpid _ => simp [step, hpc] at h

/-- One step of the supervisor preserves `reachable_inv`. -/
theorem inv_step (argv : List String) (c : Config) (R : Nat)
    (e : Event) (c1 : Config) (hinv : reachable_inv argv c R)
    (h : step argv c e = some c1) (hside : supervisor_side [e] = true) :
    reachable_inv argv c1 (R + reload_signals [e]) := by
  have hfork : ∀ ret ex, e = Event.fork ret ex →
      ret ≠ 0 ∧ reload_signals [e] = 0 := by
    intro ret ex he
    subst he
    simp only [supervisor_side, Bool.and_true, decide_eq_true_eq] at hside
    exact ⟨hside, by simp [reload_signals, reload_signal]⟩
  cases hpc : c.pc with
  | run_startup =>
    obtain ⟨ret, ex, he⟩ := step_fork_of_run argv c c1 e (Or.inl hpc) h
    obtain ⟨hret, h0⟩ := hfork ret ex he
    rw [h0]
    subst he
    exact inv_step_run_startup argv c R ret ex c1 hpc hinv hret h
  | run_reload =>
    obtain ⟨ret, ex, he⟩ := step_fork_of_run argv c c1 e (Or.inr (Or.inl hpc)) h
    obtain ⟨hret, h0⟩ := hfork ret ex he
    rw [h0]
    subst he
    exact inv_step_run_reload argv c R ret ex c1 hpc hinv hret h
  | run_shutdown =>
    obtain ⟨ret, ex, he⟩ := step_fork_of_run argv c c1 e (Or.inr (Or.inr hpc)) h
    obtain ⟨hret, h0⟩ := hfork ret ex he
    rw [h0]
    subst he
    exact inv_step_run_shutdown argv c R ret ex c1 hpc hinv hret h
  | suspend_idle => exact inv_step_suspend_idle argv c R e c1 hpc hinv h
  | suspend_reload => exact inv_step_suspend_reload argv c R e c1 hpc hinv h
  | suspend_shutdown => exact inv_step_suspend_shutdown argv c R e c1 hpc hinv h
  | getpid => exact inv_step_final argv c R e c1 (Or.inl hpc) hinv h
  | wait => exact inv_step_final argv c R e c1 (Or.inr hpc) hinv h
  | exited status => cases e <;> simp [step, hpc] at h
  | execed => cases e <;> simp [step, hpc] at h

theorem supervisor_side_cons (e : Event) (es : List Event)
    (h : supervisor_side (e :: es) = true) :
    supervisor_side [e] = true ∧ supervisor_side es = true := by
  cases e <;> simp_all [supervisor_side]

/-- Every execution of the supervisor preserves `reachable_inv`. -/
theorem inv_run (argv : List String) (es : List Event) (c : Config) (R : Nat)
    (c1 : Config) (hinv : reachable_inv argv c R)
    (h : run_events argv c es = some c1) (hside : supervisor_side es = true) :
    reachable_inv argv c1 (R + reload_signals es) := by
  induction es generalizing c R with
  | nil =>
    simp only [run_events] at h
    have h := Option.some.inj h
    subst h
    simpa [reload_signals] using hinv
  | cons e es ih =>
    simp only [run_events] at h
    obtain ⟨hs1, hs2⟩ := supervisor_side_cons e es hside
    cases hs : step argv c e with
    | none => simp [hs] at h
    | some c2 =>
      simp only [hs] at h
      have := ih c2 (R + reload_signals [e]) (inv_step argv c R e c2 hinv hs hs1) h hs2
      rw [reload_signals_cons, ← Nat.add_assoc]
      exact this

theorem inv_init (argv : List String) : reachable_inv argv init 0 := by
  simp [reachable_inv, init, launches]

/-! ## Reload against termination -/

theorem call_run_launches (argv : List String) (c : Config) (f f1 : Ptr)
    (ret : Int) (ex : Option Nat) (k : Int → Globals × PC) (hne : f ≠ f1) :
    launches f1 (call_run argv c f ret ex k).trace = launches f1 c.trace := by
  by_cases hret : ret = 0
  · subst hret
    cases ex with
    | none => simp [call_run, run]
    | some e =>
      by_cases h : (f = default_startup ∨ f = default_shutdown
            ∨ f = default_reload) ∧ e = ENOENT
      · simp [call_run, run, h]
      · simp only [call_run, run, h]
        simp [launches_append, launches]
  · rw [call_run_parent argv c f ret ex k hret]
    show launches f1 (c.trace ++ (if ret = -1 then [Action.perror "minit: fork"] else [])
      ++ [Action.run f ret]) = _
    rw [launches_run_snoc _ _ _ _ _ (launches_fork_err _ ret), if_neg hne]
    rfl

/-- A step taken anywhere but at `run(reload_script, ...)` does not launch the
reload script. -/
theorem step_launches_reload_same (argv : List String) (c c1 : Config) (e : Event)
    (hpc : c.pc ≠ PC.run_reload) (h : step argv c e = some c1) :
    launches (reload_script argv) c1.trace = launches (reload_script argv) c.trace := by
  cases hp : c.pc with
  | run_reload => exact absurd hp hpc
  | run_startup =>
    cases e with
    | fork ret ex =>
      simp only [step, hp] at h
      have h := (Option.some.inj h).symm
      subst h
      exact call_run_launches argv c _ _ ret ex _ (startup_script_ne_reload argv)
    | deliver _ _ => simp [step, hp] at h
    | getpid _ => simp [step, hp] at h
    | wait _ => simp [step, hp] at h
  | run_shutdown =>
    cases e with
    | fork ret ex =>
      simp only [step, hp] at h
      have h := (Option.some.inj h).symm
      subst h
      exact call_run_launches argv c _ _ ret ex _ (shutdown_script_ne_reload argv)
    | deliver _ _ => simp [step, hp] at h
    | getpid _ => simp [step, hp] at h
    | wait _ => simp [step, hp] at h
  | suspend_idle =>
    rw [step_suspend_idle argv c e hp] at h
    cases e with
    | deliver sig waits =>
      obtain ⟨g1, -, hc1⟩ := call_sigsuspend_eq c c1 sig waits _ h
      subst hc1
      exact launches_sigsuspend_snoc _ _ _
    | fork _ _ => simp at h
    | getpid _ => simp at h
    | wait _ => simp at h
  | suspend_reload =>
    rw [step_suspend_reload argv c e hp] at h
    cases e with
    | deliver sig waits =>
      obtain ⟨g1, -, hc1⟩ := call_sigsuspend_eq c c1 sig waits _ h
      subst hc1
      exact launches_sigsuspend_snoc _ _ _
    | fork _ _ => simp at h
    | getpid _ => simp at h
    | wait _ => simp at h
  | suspend_shutdown =>
    rw [step_suspend_shutdown argv c e hp] at h
    cases e with
    | deliver sig waits =>
      obtain ⟨g1, -, hc1⟩ := call_sigsuspend_eq c c1 sig waits _ h
      subst hc1
      exact launches_sigsuspend_snoc _ _ _
    | fork _ _ => simp at h
    | getpid _ => simp at h
    | wait _ => simp at h
  | getpid =>
    cases e with
    | getpid q =>
      by_cases hq : q = 1
      · simp only [step, hp, hq, if_true] at h
        have h := (Option.some.inj h).symm
        subst h
        simp [launches_append, launches]
      · simp only [step, hp, hq, if_false] at h
        have h := (Option.some.inj h).symm
        subst h
        rfl
    | fork _ _ => simp [step, hp] at h
    | deliver _ _ => simp [step, hp] at h
    | wait _ => simp [step, hp] at h
  | wait =>
    cases e with
    | wait r =>
      by_cases hr : r > 0
      · simp only [step, hp, hr, if_true] at h
        have h := (Option.some.inj h).symm
        subst h
        simp [launches_append, launches]
      · simp only [step, hp, hr, if_false] at h
        have h := (Option.some.inj h).symm
        subst h
        simp [launches_append, launches]
    | fork _ _ => simp [step, hp] at h
    | deliver _ _ => simp [step, hp] at h
    | getpid _ => simp [step, hp] at h
  | exited status => cases e <;> simp [step, hp] at h
  | execed => cases e <;> simp [step, hp] at h

theorem inv_terminate_not_run_reload (argv : List String) (c : Config) (R : Nat)
    (hinv : reachable_inv argv c R) (ht : c.g.terminate ≠ 0) :
    c.pc ≠ PC.run_reload ∧ c.pc ≠ PC.suspend_idle ∧ c.pc ≠ PC.run_startup := by
  refine ⟨?_, ?_, ?_⟩ <;> intro hpc <;> simp only [reachable_inv, hpc] at hinv <;>
    exact ht hinv.2.1

/-- Once `terminate` is set in a state that satisfies `reachable_inv`, no
further execution of the supervisor launches the reload script. -/
theorem no_reload_launch_after_terminate (argv : List String) (es : List Event)
    (c : Config) (R : Nat) (c1 : Config) (hinv : reachable_inv argv c R)
    (ht : c.g.terminate ≠ 0) (h : run_events argv c es = some c1)
    (hside : supervisor_side es = true) :
    launches (reload_script argv) c1.trace = launches (reload_script argv) c.trace := by
  induction es generalizing c R with
  | nil =>
    simp only [run_events] at h
    have h := Option.some.inj h
    subst h
    rfl
  | cons e es ih =>
    simp only [run_events] at h
    obtain ⟨hs1, hs2⟩ := supervisor_side_cons e es hside
    cases hs : step argv c e with
    | none => simp [hs] at h
    | some c2 =>
      simp only [hs] at h
      have h1 := step_launches_reload_same argv c c2 e
        (inv_terminate_not_run_reload argv c R hinv ht).1 hs
      have h2 := ih c2 (R + reload_signals [e]) (inv_step argv c R e c2 hinv hs hs1)
        (step_terminate_sticky argv c c2 e hs ht) h hs2
      rw [h2, h1]

theorem children_append (f : Ptr) (t1 t2 : List Action) :
    children f (t1 ++ t2) = children f t1 + children f t2 := by
  induction t1 with
  | nil => simp [children]
  | cons a t ih => cases a <;> simp [children, ih, Nat.add_assoc]

theorem forks_succeed_cons (e : Event) (es : List Event)
    (h : forks_succeed (e :: es) = true) :
    forks_succeed [e] = true ∧ forks_succeed es = true := by
  cases e <;> simp_all [forks_succeed]

theorem forks_succeed_supervisor_side (es : List Event)
    (h : forks_succeed es = true) : supervisor_side es = true := by
  induction es with
  | nil => rfl
  | cons e es ih =>
    obtain ⟨h1, h2⟩ := forks_succeed_cons e es h
    cases e with
    | fork ret ex =>
      simp only [forks_succeed, Bool.and_true, decide_eq_true_eq] at h1
      have hne : ret ≠ 0 := by omega
      simp [supervisor_side, hne, ih h2]
    | deliver _ _ => simpa [supervisor_side] using ih h2
    | getpid _ => simpa [supervisor_side] using ih h2
    | wait _ => simpa [supervisor_side] using ih h2

/-- When its `fork`, if any, succeeds, a step appends to the trace only calls
of `run` that started a child. -/
theorem step_children (argv : List String) (c c1 : Config) (e : Event)
    (h : step argv c e = some c1) (hf : forks_succeed [e] = true) :
    ∃ t, c1.trace = c.trace ++ t ∧ ∀ f, children f t = launches f t := by
  have hrun : ∀ (f1 : Ptr) (ret : Int), ret > 0 →
      ∀ f, children f ((if ret = -1 then [Action.perror "minit: fork"] else [])
            ++ [Action.run f1 ret])
        = launches f ((if ret = -1 then [Action.perror "minit: fork"] else [])
            ++ [Action.run f1 ret]) := by
    intro f1 ret hret f
    have hne : ¬ ret = -1 := by omega
    simp [hne, children, launches, hret]
  have hfork : ∀ ret ex, e = Event.fork ret ex → ret > 0 ∧ ret ≠ 0 := by
    intro ret ex he
    subst he
    simp only [forks_succeed, Bool.and_true, decide_eq_true_eq] at hf
    exact ⟨hf, by omega⟩
  cases hp : c.pc with
  | run_startup =>
    obtain ⟨ret, ex, he⟩ := step_fork_of_run argv c c1 e (Or.inl hp) h
    obtain ⟨hpos, hne⟩ := hfork ret ex he
    subst he
    rw [step_run_startup argv c ret ex hp hne] at h
    have h := (Option.some.inj h).symm
    subst h
    exact ⟨_, List.append_assoc _ _ _, hrun _ ret hpos⟩
  | run_reload =>
    obtain ⟨ret, ex, he⟩ := step_fork_of_run argv c c1 e (Or.inr (Or.inl hp)) h
    obtain ⟨hpos, hne⟩ := hfork ret ex he
    subst he
    rw [step_run_reload argv c ret ex hp hne] at h
    have h := (Option.some.inj h).symm
    subst h
    exact ⟨_, List.append_assoc _ _ _, hrun _ ret hpos⟩
  | run_shutdown =>
    obtain ⟨ret, ex, he⟩ := step_fork_of_run argv c c1 e (Or.inr (Or.inr hp)) h
    obtain ⟨hpos, hne⟩ := hfork ret ex he
    subst he
    rw [step_run_shutdown argv c ret ex hp hne] at h
    have h := (Option.some.inj h).symm
    subst h
    exact ⟨_, List.append_assoc _ _ _, hrun _ ret hpos⟩
  | suspend_idle =>
    rw [step_suspend_idle argv c e hp] at h
    cases e with
    | deliver sig waits =>
      obtain ⟨g1, -, hc1⟩ := call_sigsuspend_eq c c1 sig waits _ h
      subst hc1
      exact ⟨_, rfl, fun f => by simp [children, launches]⟩
    | fork _ _ => simp at h
    | getpid _ => simp at h
    | wait _ => simp at h
  | suspend_reload =>
    rw [step_suspend_reload argv c e hp] at h
    cases e with
    | deliver sig waits =>
      obtain ⟨g1, -, hc1⟩ := call_sigsuspend_eq c c1 sig waits _ h
      subst hc1
      exact ⟨_, rfl, fun f => by simp [children, launches]⟩
    | fork _ _ => simp at h
    | getpid _ => simp at h
    | wait _ => simp at h
  | suspend_shutdown =>
    rw [step_suspend_shutdown argv c e hp] at h
    cases e with
    | deliver sig waits =>
      obtain ⟨g1, -, hc1⟩ := call_sigsuspend_eq c c1 sig waits _ h
      subst hc1
      exact ⟨_, rfl, fun f => by simp [children, launches]⟩
    | fork _ _ => simp at h
    | getpid _ => simp at h
    | wait _ => simp at h
  | getpid =>
    cases e with
    | getpid q =>
      by_cases hq : q = 1
      · simp only [step, hp, hq, if_true] at h
        have h := (Option.some.inj h).symm
        subst h
        exact ⟨_, rfl, fun f => by simp [children, launches]⟩
      · simp only [step, hp, hq, if_false] at h
        have h := (Option.some.inj h).symm
        subst h
        exact ⟨[], by simp, fun f => by simp [children, launches]⟩
    | fork _ _ => simp [step, hp] at h
    | deliver _ _ => simp [step, hp] at h
    | wait _ => simp [step, hp] at h
  | wait =>
    cases e with
    | wait r =>
      by_cases hr : r > 0
      · simp only [step, hp, hr, if_true] at h
        have h := (Option.some.inj h).symm
        subst h
        exact ⟨_, rfl, fun f => by simp [children, launches]⟩
      · simp only [step, hp, hr, if_false] at h
        have h := (Option.some.inj h).symm
        subst h
        exact ⟨_, rfl, fun f => by simp [children, launches]⟩
    | fork _ _ => simp [step, hp] at h
    | deliver _ _ => simp [step, hp] at h
    | getpid _ => simp [step, hp] at h
  | exited status => cases e <;> simp [step, hp] at h
  | execed => cases e <;> simp [step, hp] at h

/-- In an execution in which no `fork` fails, every call of `run` in the
trace started a child. -/
theorem run_events_children (argv : List String) (es : List Event) (c c1 : Config)
    (h : run_events argv c es = some c1) (hf : forks_succeed es = true) :
    ∃ t, c1.trace = c.trace ++ t ∧ ∀ f, children f t = launches f t := by
  induction es generalizing c with
  | nil =>
    simp only [run_events] at h
    have h := Option.some.inj h
    subst h
    exact ⟨[], by simp, fun f => by simp [children, launches]⟩
  | cons e es ih =>
    simp only [run_events] at h
    obtain ⟨hf1, hf2⟩ := forks_succeed_cons e es hf
    cases hs : step argv c e with
    | none => simp [hs] at h
    | some c2 =>
      simp only [hs] at h
      obtain ⟨t1, k1, k2⟩ := step_children argv c c2 e hs hf1
      obtain ⟨t2, m1, m2⟩ := ih c2 h hf2
      refine ⟨t1 ++ t2, by rw [m1, k1, List.append_assoc], fun f => ?_⟩
      rw [children_append, launches_append, k2, m2]

theorem children_le_launches (f : Ptr) (t : List Action) :
    children f t ≤ launches f t := by
  induction t with
  | nil => simp [children, launches]
  | cons a t ih =>
    cases a with
    | run f1 pid =>
      simp only [children, launches]
      by_cases h1 : f1 = f <;> by_cases h2 : pid > 0 <;> simp [h1, h2] <;> omega
    | perror _ => simpa [children, launches] using ih
    | sigsuspend _ => simpa [children, launches] using ih
    | kill _ _ => simpa [children, launches] using ih
    | wait _ => simpa [children, launches] using ih

theorem call_run_trace (argv : List String) (c : Config) (f : Ptr)
    (ret : Int) (ex : Option Nat) (k : Int → Globals × PC) :
    ∃ t, (call_run argv c f ret ex k).trace = c.trace ++ t := by
  unfold call_run
  cases run argv f ret ex with
  | returned pid err => exact ⟨_, List.append_assoc _ _ _⟩
  | execed => exact ⟨[], by simp⟩
  | exited status err => exact ⟨_, rfl⟩

/-- A step only appends to the trace. -/
theorem step_trace (argv : List String) (c c1 : Config) (e : Event)
    (h : step argv c e = some c1) : ∃ t, c1.trace = c.trace ++ t := by
  unfold step at h
  split at h
  · have h := (Option.some.inj h).symm
    subst h
    exact call_run_trace argv c _ _ _ _
  · obtain ⟨g1, -, hc1⟩ := call_sigsuspend_eq c c1 _ _ _ h
    subst hc1
    exact ⟨_, rfl⟩
  · have h := (Option.some.inj h).symm
    subst h
    exact call_run_trace argv c _ _ _ _
  · obtain ⟨g1, -, hc1⟩ := call_sigsuspend_eq c c1 _ _ _ h
    subst hc1
    exact ⟨_, rfl⟩
  · have h := (Option.some.inj h).symm
    subst h
    exact call_run_trace argv c _ _ _ _
  · obtain ⟨g1, -, hc1⟩ := call_sigsuspend_eq c c1 _ _ _ h
    subst hc1
    exact ⟨_, rfl⟩
  · split at h
    · have h := (Option.some.inj h).symm
      subst h
      exact ⟨_, rfl⟩
    · have h := (Option.some.inj h).symm
      subst h
      exact ⟨[], by simp⟩
  · split at h <;>
    · have h := (Option.some.inj h).symm
      subst h
      exact ⟨_, rfl⟩
  · simp at h

theorem run_events_trace (argv : List String) (es : List Event) (c c1 : Config)
    (h : run_events argv c es = some c1) : ∃ t, c1.trace = c.trace ++ t := by
  induction es generalizing c with
  | nil =>
    simp only [run_events] at h
    have h := Option.some.inj h
    subst h
    exact ⟨[], by simp⟩
  | cons e es ih =>
    simp only [run_events] at h
    cases hs : step argv c e with
    | none => simp [hs] at h
    | some c2 =>
      simp only [hs] at h
      obtain ⟨t1, k1⟩ := step_trace argv c c2 e hs
      obtain ⟨t2, k2⟩ := ih c2 h
      exact ⟨t1 ++ t2, by rw [k2, k1, List.append_assoc]⟩

/-- An execution that makes no new call of `run` on a script starts no new
child of that script. -/
theorem children_same_of_launches_same (argv : List String) (es : List Event)
    (c c1 : Config) (f : Ptr) (h : run_events argv c es = some c1)
    (hl : launches f c1.trace = launches f c.trace) :
    children f c1.trace = children f c.trace := by
  obtain ⟨t, ht⟩ := run_events_trace argv es c c1 h
  rw [ht, launches_append] at hl
  have h0 : launches f t = 0 := by omega
  have h1 := children_le_launches f t
  rw [ht, children_append]
  omega

/-- C6 fails as stated. First execution: a reload runs, a termination signal
arrives during it, the reload child's exit is observed (`reload_pid` cleared,
control at `run(shutdown_script, ...)`), and a reload-class signal delivered
after that, during the shutdown wait, launches nothing: the supervisor exits
having launched the reload script once for two reload signals. Second
execution: two reload-class signals delivered during the shutdown wait
yield zero launches of the reload script. Third execution: the `fork` for a
reload request fails, so the call of `run` starts no reload child. -/
theorem reload_signal_after_termination_lost :
    (run_events [] init
        [Event.fork 2 none, Event.deliver Signal.SIGHUP [], Event.fork (-1) none]
      = some (Config.mk (Globals.mk 0 (-1) 0 0) PC.suspend_idle
          [Action.run (startup_script []) 2, Action.sigsuspend Signal.SIGHUP,
           Action.perror "minit: fork", Action.run (reload_script []) (-1)])
      ∧ children (reload_script [])
          [Action.run (startup_script []) 2, Action.sigsuspend Signal.SIGHUP,
           Action.perror "minit: fork", Action.run (reload_script []) (-1)] = 0) ∧
    run_events [] init
        [Event.fork 2 none, Event.deliver Signal.SIGHUP [], Event.fork 5 none,
         Event.deliver Signal.SIGTERM [],
         Event.deliver Signal.SIGCHLD [WaitRet.mk 5 0, WaitRet.mk 0 0]]
      = some (Config.mk (Globals.mk 0 0 1 0) PC.run_shutdown
          [Action.run (startup_script []) 2, Action.sigsuspend Signal.SIGHUP,
           Action.run (reload_script []) 5, Action.sigsuspend Signal.SIGTERM,
           Action.sigsuspend Signal.SIGCHLD])
    ∧ run_events [] init
        [Event.fork 2 none, Event.deliver Signal.SIGHUP [], Event.fork 5 none,
         Event.deliver Signal.SIGTERM [],
         Event.deliver Signal.SIGCHLD [WaitRet.mk 5 0, WaitRet.mk 0 0],
         Event.fork 6 none, Event.deliver Signal.SIGHUP [],
         Event.deliver Signal.SIGCHLD [WaitRet.mk 6 0, WaitRet.mk 0 0],
         Event.getpid 7]
      = some (Config.mk (Globals.mk 0 0 1 1) (PC.exited 0)
          [Action.run (startup_script []) 2, Action.sigsuspend Signal.SIGHUP,
           Action.run (reload_script []) 5, Action.sigsuspend Signal.SIGTERM,
           Action.sigsuspend Signal.SIGCHLD, Action.run (shutdown_script []) 6,
           Action.sigsuspend Signal.SIGHUP, Action.sigsuspend Signal.SIGCHLD])
    ∧ run_events [] init
        [Event.fork 2 none, Event.deliver Signal.SIGTERM [], Event.fork 6 none,
         Event.deliver Signal.SIGHUP [], Event.deliver Signal.SIGUSR1 [],
         Event.deliver Signal.SIGCHLD [WaitRet.mk 6 0, WaitRet.mk 0 0],
         Event.getpid 7]
      = some (Config.mk (Globals.mk 0 0 1 1) (PC.exited 0)
          [Action.run (startup_script []) 2, Action.sigsuspend Signal.SIGTERM,
           Action.run (shutdown_script []) 6, Action.sigsuspend Signal.SIGHUP,
           Action.sigsuspend Signal.SIGUSR1, Action.sigsuspend Signal.SIGCHLD])
    ∧ launches (reload_script [])
        [Action.run (startup_script []) 2, Action.sigsuspend Signal.SIGTERM,
         Action.run (shutdown_script []) 6, Action.sigsuspend Signal.SIGHUP,
         Action.sigsuspend Signal.SIGUSR1, Action.sigsuspend Signal.SIGCHLD] = 0 := by
  decide

/-- From the idle wait, a reload-class signal leads to a call of `run` on the
reload script. -/
theorem idle_reload_signal_launches (argv : List String) (c : Config) (sig : Signal)
    (ws : List WaitRet) (ret : Int) (ex : Option Nat)
    (hpc : c.pc = PC.suspend_idle) (ht : c.g.terminate = 0)
    (hsig : reload_signal (Event.deliver sig ws) = true) (hret : ret ≠ 0) :
    ∃ c3, run_events argv c [Event.deliver sig ws, Event.fork ret ex] = some c3
      ∧ c3.trace = c.trace ++ [Action.sigsuspend sig]
          ++ (if ret = -1 then [Action.perror "minit: fork"] else [])
          ++ [Action.run (reload_script argv) ret]
      ∧ launches (reload_script argv) c3.trace
          = launches (reload_script argv) c.trace + 1 := by
  have hg : handle c.g sig ws = some { c.g with reload := 1 } := by
    cases sig <;> simp [reload_signal] at hsig <;> simp [handle, handle_reload]
  have hrf : run_forever { c.g with reload := 1 } = PC.run_reload := by
    simp [run_forever, ht]
  have h1 : step argv c (Event.deliver sig ws)
      = some { g := { c.g with reload := 1 }, pc := PC.run_reload,
               trace := c.trace ++ [Action.sigsuspend sig] } := by
    rw [step_suspend_idle argv c _ hpc]
    simp [call_sigsuspend, hg, hrf]
  have h2 := step_run_reload argv
    { g := { c.g with reload := 1 }, pc := PC.run_reload,
      trace := c.trace ++ [Action.sigsuspend sig] } ret ex rfl hret
  refine ⟨_, run_events_cons argv _ _ c _ _ h1 (run_events_single argv _ _ _ h2), rfl, ?_⟩
  show launches (reload_script argv)
      (c.trace ++ [Action.sigsuspend sig]
        ++ (if ret = -1 then [Action.perror "minit: fork"] else [])
        ++ [Action.run (reload_script argv) ret]) = _
  rw [launches_run_snoc _ _ _ _ _ (launches_fork_err _ ret), if_pos rfl,
    launches_sigsuspend_snoc]

/-- C6, as the code has it: while termination has not been requested, a
reload request is never lost after the previous reload has completed.
(1) When the handler that collects the tracked reload pid leaves `terminate`
unset, the supervisor returns to the idle wait with `reload` and `reload_pid`
cleared, and a reload-class signal delivered after that makes it call `run` on
the reload script again; the call starts a new reload child when `fork`
succeeds. (2) In every execution of the supervisor from the initial state the
calls of `run` on the reload script (counting one that is the very next step)
are at most as many as the reload-class signals delivered and, while
`terminate` is unset, at least one if at least one was delivered. (3) When no
`fork` fails the same bounds hold of the reload children started: two reload
signals yield one or two, never zero. (4) Once `terminate` is set, no further
execution calls `run` on the reload script or starts a reload child, whatever
signals are delivered. -/
theorem reload_request_not_lost_before_termination (argv : List String) :
    (∀ (c : Config) (waits : List WaitRet) (g1 : Globals) (sig : Signal)
        (ws : List WaitRet) (ret : Int) (ex : Option Nat),
        c.pc = PC.suspend_reload → c.g.reload_pid ∈ collected waits →
        handle c.g Signal.SIGCHLD waits = some g1 → g1.terminate = 0 →
        reload_signal (Event.deliver sig ws) = true → ret ≠ 0 →
        ∃ c1 c3, step argv c (Event.deliver Signal.SIGCHLD waits) = some c1
          ∧ c1.pc = PC.suspend_idle ∧ c1.g.reload = 0 ∧ c1.g.reload_pid = 0
          ∧ run_events argv c1 [Event.deliver sig ws, Event.fork ret ex] = some c3
          ∧ c3.trace = c.trace ++ [Action.sigsuspend Signal.SIGCHLD]
              ++ [Action.sigsuspend sig]
              ++ (if ret = -1 then [Action.perror "minit: fork"] else [])
              ++ [Action.run (reload_script argv) ret]
          ∧ launches (reload_script argv) c3.trace
              = launches (reload_script argv) c.trace + 1
          ∧ (0 < ret → children (reload_script argv) c3.trace
              = children (reload_script argv) c.trace + 1))
    ∧ (∀ (es : List Event) (c : Config),
        run_events argv init es = some c → supervisor_side es = true →
        launches (reload_script argv) c.trace
            + (if c.pc = PC.run_reload then 1 else 0) ≤ reload_signals es
        ∧ (c.g.terminate = 0 → 1 ≤ reload_signals es →
            1 ≤ launches (reload_script argv) c.trace
              + (if c.pc = PC.run_reload then 1 else 0)))
    ∧ (∀ (es : List Event) (c : Config),
        run_events argv init es = some c → forks_succeed es = true →
        children (reload_script argv) c.trace
            + (if c.pc = PC.run_reload then 1 else 0) ≤ reload_signals es
        ∧ (c.g.terminate = 0 → 1 ≤ reload_signals es →
            1 ≤ children (reload_script argv) c.trace
              + (if c.pc = PC.run_reload then 1 else 0)))
    ∧ (∀ (es : List Event) (c : Config) (es2 : List Event) (c2 : Config),
        run_events argv init es = some c → supervisor_side es = true →
        c.g.terminate ≠ 0 →
        run_events argv c es2 = some c2 → supervisor_side es2 = true →
        launches (reload_script argv) c2.trace = launches (reload_script argv) c.trace
        ∧ children (reload_script argv) c2.trace
            = children (reload_script argv) c.trace) := by
  have hcount : ∀ (es : List Event) (c : Config),
      run_events argv init es = some c → supervisor_side es = true →
      launches (reload_script argv) c.trace
          + (if c.pc = PC.run_reload then 1 else 0) ≤ reload_signals es
      ∧ (c.g.terminate = 0 → 1 ≤ reload_signals es →
          1 ≤ launches (reload_script argv) c.trace
            + (if c.pc = PC.run_reload then 1 else 0)) := by
    intro es c hrun hside
    have hinv := inv_run argv es init 0 c (inv_init argv) hrun hside
    rw [Nat.zero_add] at hinv
    obtain ⟨hL, hrest⟩ := hinv
    cases hpc : c.pc <;> simp only [hpc] at hrest <;>
      simp only [reduceCtorEq, if_false, if_true, Nat.add_zero]
    · exact ⟨hL, fun _ h1 => by omega⟩
    · exact ⟨hL, fun _ h1 => hrest.2.2 h1⟩
    · exact ⟨hrest.2.2, fun _ _ => by omega⟩
    · exact ⟨hL, fun _ _ => hrest.2.2⟩
    · exact ⟨hL, fun h0 _ => absurd h0 hrest.1⟩
    · exact ⟨hL, fun h0 _ => absurd h0 hrest⟩
    · exact ⟨hL, fun h0 _ => absurd h0 hrest⟩
    · exact ⟨hL, fun h0 _ => absurd h0 hrest⟩
    · exact ⟨hL, fun h0 _ => absurd h0 hrest⟩
  refine ⟨?_, hcount, ?_, ?_⟩
  · intro c waits g1 sig ws ret ex hpc hcol hg ht hsig hret
    obtain ⟨-, h2, -⟩ := handle_spec c.g g1 Signal.SIGCHLD waits hg
    have hp0 : g1.reload_pid = 0 := by
      rw [h2]
      simp [collects, hcol]
    have hw : reload_wait g1 = ({ g1 with reload := 0 }, PC.suspend_idle) := by
      simp [reload_wait, hp0, run_forever, ht]
    have h1 : step argv c (Event.deliver Signal.SIGCHLD waits)
        = some { g := { g1 with reload := 0 }, pc := PC.suspend_idle,
                 trace := c.trace ++ [Action.sigsuspend Signal.SIGCHLD] } := by
      rw [step_suspend_reload argv c _ hpc]
      simp [call_sigsuspend, hg, hw]
    obtain ⟨c3, k1, k2, k3⟩ := idle_reload_signal_launches argv
      { g := { g1 with reload := 0 }, pc := PC.suspend_idle,
        trace := c.trace ++ [Action.sigsuspend Signal.SIGCHLD] } sig ws ret ex
      rfl ht hsig hret
    refine ⟨_, c3, h1, rfl, rfl, hp0, k1, k2, ?_, ?_⟩
    · rw [k3]
      show launches (reload_script argv)
        (c.trace ++ [Action.sigsuspend Signal.SIGCHLD]) + 1 = _
      rw [launches_sigsuspend_snoc]
    · intro hpos
      have hne : ¬ ret = -1 := by omega
      rw [k2]
      show children (reload_script argv)
        (c.trace ++ [Action.sigsuspend Signal.SIGCHLD] ++ [Action.sigsuspend sig]
          ++ (if ret = -1 then [Action.perror "minit: fork"] else [])
          ++ [Action.run (reload_script argv) ret]) = _
      simp [children_append, children, hne, hpos]
  · intro es c hrun hf
    obtain ⟨h1, h2⟩ := hcount es c hrun (forks_succeed_supervisor_side es hf)
    obtain ⟨t, ht1, ht2⟩ := run_events_children argv es init c hrun hf
    have heq : children (reload_script argv) c.trace
        = launches (reload_script argv) c.trace := by
      have h0 : c.trace = t := by rw [ht1]; rfl
      rw [h0]
      exact ht2 _
    rw [heq]
    exact ⟨h1, h2⟩
  · intro es c es2 c2 hrun hside ht hrun2 hside2
    have hinv := inv_run argv es init 0 c (inv_init argv) hrun hside
    have hl := no_reload_launch_after_terminate argv es2 c _ c2 hinv ht hrun2 hside2
    exact ⟨hl, children_same_of_launches_same argv es2 c c2 _ hrun2 hl⟩

theorem reload_request_not_lost_before_termination_witness :
    ((5 : Int) ∈ collected [WaitRet.mk 5 0, WaitRet.mk 0 0]
      ∧ handle (Globals.mk 0 5 0 1) Signal.SIGCHLD [WaitRet.mk 5 0, WaitRet.mk 0 0]
          = some (Globals.mk 0 0 0 1)
      ∧ reload_signal (Event.deliver Signal.SIGUSR1 []) = true)
    ∧ (∃ c1 c3, step [] (Config.mk (Globals.mk 0 5 0 1) PC.suspend_reload [])
            (Event.deliver Signal.SIGCHLD [WaitRet.mk 5 0, WaitRet.mk 0 0]) = some c1
          ∧ c1.pc = PC.suspend_idle ∧ c1.g.reload = 0 ∧ c1.g.reload_pid = 0
          ∧ run_events [] c1 [Event.deliver Signal.SIGUSR1 [], Event.fork 9 none]
              = some c3
          ∧ c3.trace = [] ++ [Action.sigsuspend Signal.SIGCHLD]
              ++ [Action.sigsuspend Signal.SIGUSR1]
              ++ (if (9 : Int) = -1 then [Action.perror "minit: fork"] else [])
              ++ [Action.run (reload_script []) 9]
          ∧ launches (reload_script []) c3.trace = launches (reload_script []) [] + 1
          ∧ ((0 : Int) < 9 → children (reload_script []) c3.trace
              = children (reload_script []) [] + 1))
    ∧ (1 ≤ reload_signals [Event.fork 2 none, Event.deliver Signal.SIGHUP [],
            Event.fork 5 none, Event.deliver Signal.SIGHUP []] →
        1 ≤ children (reload_script [])
              [Action.run (startup_script []) 2, Action.sigsuspend Signal.SIGHUP,
               Action.run (reload_script []) 5, Action.sigsuspend Signal.SIGHUP]
            + (if PC.suspend_reload = PC.run_reload then 1 else 0))
    ∧ (launches (reload_script [])
          [Action.run (startup_script []) 2, Action.sigsuspend Signal.SIGTERM,
           Action.run (shutdown_script []) 6, Action.sigsuspend Signal.SIGHUP,
           Action.sigsuspend Signal.SIGUSR1]
        = launches (reload_script [])
          [Action.run (startup_script []) 2, Action.sigsuspend Signal.SIGTERM]
      ∧ children (reload_script [])
          [Action.run (startup_script []) 2, Action.sigsuspend Signal.SIGTERM,
           Action.run (shutdown_script []) 6, Action.sigsuspend Signal.SIGHUP,
           Action.sigsuspend Signal.SIGUSR1]
        = children (reload_script [])
          [Action.run (startup_script []) 2, Action.sigsuspend Signal.SIGTERM]) :=
  ⟨by decide,
    (reload_request_not_lost_before_termination []).1
      (Config.mk (Globals.mk 0 5 0 1) PC.suspend_reload [])
      [WaitRet.mk 5 0, WaitRet.mk 0 0] (Globals.mk 0 0 0 1) Signal.SIGUSR1 [] 9 none
      rfl (by decide) (by decide) (by decide) (by decide) (by decide),
    ((reload_request_not_lost_before_termination []).2.2.1
      [Event.fork 2 none, Event.deliver Signal.SIGHUP [], Event.fork 5 none,
        Event.deliver Signal.SIGHUP []]
      (Config.mk (Globals.mk 0 5 0 1) PC.suspend_reload
        [Action.run (startup_script []) 2, Action.sigsuspend Signal.SIGHUP,
         Action.run (reload_script []) 5, Action.sigsuspend Signal.SIGHUP])
      (by decide) (by decide)).2 (by decide),
    (reload_request_not_lost_before_termination []).2.2.2
      [Event.fork 2 none, Event.deliver Signal.SIGTERM []]
      (Config.mk (Globals.mk 0 0 1 0) PC.run_shutdown
        [Action.run (startup_script []) 2, Action.sigsuspend Signal.SIGTERM])
      [Event.fork 6 none, Event.deliver Signal.SIGHUP [],
        Event.deliver Signal.SIGUSR1 []]
      (Config.mk (Globals.mk 6 0 1 1) PC.suspend_shutdown
        [Action.run (startup_script []) 2, Action.sigsuspend Signal.SIGTERM,
         Action.run (shutdown_script []) 6, Action.sigsuspend Signal.SIGHUP,
         Action.sigsuspend Signal.SIGUSR1])
      (by decide) (by decide) (by decide) (by decide) (by decide)⟩

end Minit
